import Mathlib

/-!
# Verification of the BearVault dashboard-configuration state logic

This file gives a shallow embedding, in Lean 4, of the client-side
state-reconciliation logic of the repository:

* `src/unnamed/part_000` — the `TabInput` data model,
* `src/unnamed/part_001` — the `TabGroup` / `DashboardTab` data model,
* `src/unnamed/part_002` — the `useTabInputs` hook (`sanitizeKey`,
  `ensureUniqueKey`, `addInput`, `updateInput`, `removeInput`,
  `reorderInputs`),
* `src/unnamed/part_003` — the `useDashboardTabs` hook (`reorderTabs`,
  `removeGroup`, `reorderGroups`, `moveGroupToParent`, `isDescendant`),
* `src/app/api/user-configs/tab-inputs/route.ts` — the GET / POST handlers.

The React state updates are modelled as pure functions from the old state
(lists of tabs / groups / inputs) to the new state; the impure ingredients
(`Date.now()`, `Math.random()`, `new Date().toISOString()`, the generated
ids, the document store) are passed in as explicit parameters.  JavaScript
`string | undefined` fields are modelled as `Option String`, and the
JavaScript truthiness coercions that the source relies on (`x || undefined`,
`if (!x)`, `x ? a : b` — under which the empty string behaves like
`undefined`) are modelled explicitly by `normOpt` and `optFalsy`.
-/

/-- JavaScript `x || undefined` on a `string | undefined` value: the empty
string is falsy and collapses to `undefined`. -/
def normOpt : Option String → Option String
  | some s => if s = "" then none else some s
  | none => none

/-- JavaScript `!x` on a `string | undefined` value: `undefined` and the
empty string are the falsy cases. -/
def optFalsy : Option String → Bool
  | some s => s == ""
  | none => true

/-- JavaScript object-spread merge of one optional field: a field present in
the update object wins, otherwise the old value is kept
(`{ ...input, ...updates }` on a field that is optional in both). -/
def jsMerge {α : Type} : Option α → Option α → Option α
  | some v, _ => some v
  | none, old => old

/-! ## Data model (`src/unnamed/part_000`, `src/unnamed/part_001`) -/

/-- `TabGroup` from `src/unnamed/part_001`.  `order` is a JS number used as
an integer throughout the source. -/
structure TabGroup where
  id : String
  name : String
  order : Int
  parentId : Option String := none
deriving DecidableEq, Repr

/-- `DashboardTab` from `src/unnamed/part_001`. -/
structure DashboardTab where
  id : String
  name : String
  createdAt : String
  isPublic : Option Bool := none
  groupId : Option String := none
  link : Option String := none
  icon : Option String := none
deriving DecidableEq, Repr

/-- `TabInputType` from `src/unnamed/part_000`: `"text" | "number" | "date"`. -/
inductive TabInputType
  | text
  | number
  | date
deriving DecidableEq, Repr

/-- `TabInputOption` from `src/unnamed/part_000`. -/
structure TabInputOption where
  label : String
  value : String
deriving DecidableEq, Repr

/-- `TabInput` from `src/unnamed/part_000`. -/
structure TabInput where
  id : String
  tabId : String
  key : String
  label : String
  type : TabInputType := .text
  value : Option String := none
  defaultValue : Option String := none
  placeholder : Option String := none
  description : Option String := none
  options : Option (List TabInputOption) := none
  order : Option Int := none
  createdAt : Option String := none
  updatedAt : Option String := none
deriving DecidableEq, Repr

/-! ## Decimal rendering of numbers

The source interpolates counters into template literals
(`` `${candidate}_${suffix++}` ``), which renders the number in decimal.
`natToDec` computes that decimal string; it is defined with an explicit
fuel (`n / 10 < n` for `n ≥ 1`, so fuel `n` always suffices) so that it is
structurally recursive and evaluates by kernel reduction. -/

/-- The decimal digit character for `d < 10`. -/
def digChar : Nat → Char
  | 0 => '0'
  | 1 => '1'
  | 2 => '2'
  | 3 => '3'
  | 4 => '4'
  | 5 => '5'
  | 6 => '6'
  | 7 => '7'
  | 8 => '8'
  | 9 => '9'
  | _ => '!'

/-- Decimal digits of `n`, most significant first, with fuel. -/
def decDigitsAux : Nat → Nat → List Char
  | 0, _ => []
  | fuel + 1, n =>
    if n = 0 then [] else decDigitsAux fuel (n / 10) ++ [digChar (n % 10)]

/-- The decimal string of a natural number, as produced by a JS template
literal. -/
def natToDec (n : Nat) : String :=
  if n = 0 then "0" else ⟨decDigitsAux n n⟩

/-- Decimal valuation of a digit string; used to prove `natToDec` injective. -/
def decVal (cs : List Char) : Nat :=
  cs.foldl (fun acc c => acc * 10 + (c.toNat - 48)) 0

/-! ## `src/unnamed/part_002`: the `useTabInputs` hook -/

/-- Characters kept by the second regex of `sanitizeKey`
(`/[^a-z0-9_]/g` removes everything else). -/
def keyChar (c : Char) : Bool :=
  ('a' ≤ c && c ≤ 'z') || ('0' ≤ c && c ≤ '9') || c == '_'

/-- The ASCII part of the JS `\s` character class.  (JS `\s` also matches
some Unicode spaces; those would in any case be removed by the
`/[^a-z0-9_]/g` replacement that follows, so the final key is the same.) -/
def jsWhitespace (c : Char) : Bool :=
  c == ' ' || c == '\t' || c == '\n' || c == '\r' || c == '\x0b' || c == '\x0c'

/-- `.replace(/\s+/g, "_")`: each maximal run of whitespace becomes a single
underscore.  The Boolean argument records whether the previous character was
part of a whitespace run. -/
def collapseWS : Bool → List Char → List Char
  | _, [] => []
  | inRun, c :: rest =>
    if jsWhitespace c then
      if inRun then collapseWS true rest else '_' :: collapseWS true rest
    else c :: collapseWS false rest

/-- `sanitizeKey` from `src/unnamed/part_002` lines 10–16: lowercase,
replace whitespace runs by `_`, drop every character outside `[a-z0-9_]`,
truncate to 50 characters. -/
def sanitizeKey (key : String) : String :=
  ⟨((collapseWS false (key.data.map Char.toLower)).filter keyChar).take 50⟩

/-- `DEFAULT_LABEL` from `src/unnamed/part_002`. -/
def defaultLabel : String := "ตัวแปรใหม่"

/-- The candidate tried at step `k` of the `ensureUniqueKey` loop:
the base itself first, then `` `${candidate}_${suffix}` `` for
`suffix = 1, 2, …`. -/
def candidateAt (base : String) : Nat → String
  | 0 => base
  | k + 1 => base ++ "_" ++ natToDec (k + 1)

/-- The `while (existingKeys.has(uniqueKey))` loop of `ensureUniqueKey`,
with fuel.  The JS loop terminates because the candidates are pairwise
distinct and the key set is finite; fuel `existingKeys.length + 1` is shown
sufficient below (`firstFreeKey_not_mem`). -/
def firstFreeKey (existing : List String) (base : String) : Nat → Nat → String
  | 0, k => candidateAt base k
  | fuel + 1, k =>
    if existing.contains (candidateAt base k) then
      firstFreeKey existing base fuel (k + 1)
    else candidateAt base k

/-- `ensureUniqueKey` from `src/unnamed/part_002` lines 94–113.
`excludeId = none` models the call without the optional second argument. -/
def ensureUniqueKey (inputs : List TabInput) (desiredKey : String)
    (excludeId : Option String) : String :=
  let candidate := sanitizeKey desiredKey
  let candidate := if candidate = "" then "input" else candidate
  let existingKeys :=
    (inputs.filter (fun input => some input.id != excludeId)).map (fun input => input.key)
  firstFreeKey existingKeys candidate (existingKeys.length + 1) 0

/-- The `payload` / `updates` argument of `addInput` and `updateInput`:
`Partial<Omit<TabInput, "id" | "tabId">>`, every field optional. -/
structure InputPayload where
  key : Option String := none
  label : Option String := none
  type : Option TabInputType := none
  value : Option String := none
  defaultValue : Option String := none
  placeholder : Option String := none
  description : Option String := none
  options : Option (List TabInputOption) := none
  order : Option Int := none
  createdAt : Option String := none
  updatedAt : Option String := none
deriving DecidableEq, Repr

/-- `addInput` from `src/unnamed/part_002` lines 115–144.  The generated id
and the timestamp are passed in (`newId`, `now`).  `payload?.key || …`,
`payload?.label || DEFAULT_LABEL` and `payload?.type || "text"` use JS `||`
(empty strings fall through to the default); `?? `-chains are plain
option-defaulting. -/
def addInput (inputs : List TabInput) (tabId : String) (payload : InputPayload)
    (newId : String) (now : String) : List TabInput :=
  let desired :=
    match normOpt payload.key with
    | some k => k
    | none => "input_" ++ natToDec (inputs.length + 1)
  let nextKey := ensureUniqueKey inputs desired none
  let newInput : TabInput :=
    { id := newId
      tabId := tabId
      key := nextKey
      label := (normOpt payload.label).getD defaultLabel
      type := payload.type.getD .text
      value := some ((jsMerge payload.value payload.defaultValue).getD "")
      defaultValue := some (payload.defaultValue.getD "")
      placeholder := payload.placeholder
      description := payload.description
      options := payload.options
      order := some (Int.ofNat inputs.length)
      createdAt := some now
      updatedAt := some now }
  inputs ++ [newInput]

/-- The `{ ...input, ...updates, key: nextKey, updatedAt: … }` merge inside
`updateInput`. -/
def applyUpdates (input : TabInput) (updates : InputPayload) (nextKey : String)
    (now : String) : TabInput :=
  { id := input.id
    tabId := input.tabId
    key := nextKey
    label := updates.label.getD input.label
    type := updates.type.getD input.type
    value := jsMerge updates.value input.value
    defaultValue := jsMerge updates.defaultValue input.defaultValue
    placeholder := jsMerge updates.placeholder input.placeholder
    description := jsMerge updates.description input.description
    options := jsMerge updates.options input.options
    order := jsMerge updates.order input.order
    createdAt := jsMerge updates.createdAt input.createdAt
    updatedAt := some now }

/-- `updateInput` from `src/unnamed/part_002` lines 146–165.
`updates.key && updates.key !== input.key` is JS truthiness: an absent or
empty `updates.key` keeps the old key. -/
def updateInput (inputs : List TabInput) (id : String) (updates : InputPayload)
    (now : String) : List TabInput :=
  inputs.map fun input =>
    if input.id = id then
      let nextKey :=
        match normOpt updates.key with
        | some k => if k ≠ input.key then ensureUniqueKey inputs k (some id) else input.key
        | none => input.key
      applyUpdates input updates nextKey now
    else input

/-- `removeInput` from `src/unnamed/part_002` lines 167–175: filter the id
out, then renumber `order` by position. -/
def removeInput (inputs : List TabInput) (id : String) : List TabInput :=
  (inputs.filter (fun input => input.id != id)).mapIdx
    (fun index input => { input with order := some (Int.ofNat index) })

/-- `Array.prototype.splice(i, 0, a)` as used by the reorder functions:
insert `a` at position `i` (clamped to the length). -/
def insertAt {α : Type} (l : List α) (i : Nat) (a : α) : List α :=
  l.take i ++ a :: l.drop i

/-- The `splice`-out / `splice`-in pair used by every reorder function:
remove the element at `fromIdx` and re-insert it at `toIdx`.
(For an out-of-range `fromIdx` the JS code would splice `undefined` into the
array, corrupting the state; the claims only concern in-range indices, and
this model returns the list unchanged in that case.) -/
def moveElem {α : Type} (l : List α) (fromIdx toIdx : Nat) : List α :=
  match l[fromIdx]? with
  | none => l
  | some a => insertAt (l.eraseIdx fromIdx) toIdx a

/-- `reorderInputs` from `src/unnamed/part_002` lines 193–206: early return
when the two indices coincide, otherwise move and renumber every `order`
field by position. -/
def reorderInputs (inputs : List TabInput) (fromIdx toIdx : Nat) : List TabInput :=
  if fromIdx = toIdx then inputs
  else
    (moveElem inputs fromIdx toIdx).mapIdx
      (fun index input => { input with order := some (Int.ofNat index) })

/-! ## `src/unnamed/part_003`: the `useDashboardTabs` hook -/

/-- `groups.find(g => g.id === x)`. -/
def lookupGroup (groups : List TabGroup) (id : String) : Option TabGroup :=
  groups.find? (fun g => g.id == id)

/-- The membership test of `reorderTabs`: with a truthy `groupId` argument
the targeted sublist is `tabs.filter(t => t.groupId === groupId)`, otherwise
it is `tabs.filter(t => !t.groupId)` (which also catches an empty-string
`groupId` field). -/
def tabInTarget (groupId : Option String) (t : DashboardTab) : Bool :=
  match normOpt groupId with
  | some gid => t.groupId == some gid
  | none => optFalsy t.groupId

/-- `reorderTabs` from `src/unnamed/part_003` lines 189–206: split the tabs
into the targeted sublist and the rest, move inside the sublist, and
concatenate the rest first. -/
def reorderTabs (tabs : List DashboardTab) (fromIdx toIdx : Nat)
    (groupId : Option String) : List DashboardTab :=
  let groupTabs := tabs.filter (tabInTarget groupId)
  let otherTabs := tabs.filter (fun t => !tabInTarget groupId t)
  otherTabs ++ moveElem groupTabs fromIdx toIdx

/-- `removeGroup` from `src/unnamed/part_003` lines 229–245: move the
group's tabs to Uncategorized, delete every group with the given id, and
re-parent its children to `groupToRemove?.parentId || undefined`. -/
def removeGroup (tabs : List DashboardTab) (groups : List TabGroup)
    (groupId : String) : List DashboardTab × List TabGroup :=
  let newTabs := tabs.map (fun t =>
    if t.groupId == some groupId then { t with groupId := none } else t)
  let parentId := (lookupGroup groups groupId).bind (fun g => g.parentId)
  let newGroups := (groups.filter (fun g => g.id != groupId)).map (fun g =>
    if g.parentId == some groupId then { g with parentId := normOpt parentId } else g)
  (newTabs, newGroups)

/-- `reorderGroups` from `src/unnamed/part_003` lines 254–270: split the
groups by parent level (`(g.parentId || undefined) === (parentId || undefined)`),
move inside the level, renumber the level's `order` fields by position, and
concatenate the other groups first. -/
def reorderGroups (groups : List TabGroup) (fromIdx toIdx : Nat)
    (parentId : Option String) : List TabGroup :=
  let key := normOpt parentId
  let sameLevelGroups := groups.filter (fun g => normOpt g.parentId == key)
  let otherGroups := groups.filter (fun g => normOpt g.parentId != key)
  let reordered := (moveElem sameLevelGroups fromIdx toIdx).mapIdx
    (fun index g => { g with order := Int.ofNat index })
  otherGroups ++ reordered

/-- The inner `isDescendant` of `moveGroupToParent`
(`src/unnamed/part_003` lines 278–284), with fuel.  The JS recursion walks
the `parentId` chain with no bound; whenever that walk terminates it visits
each list position at most once (a repeated id would make the JS recursion
diverge), so `groups.length + 1` steps of fuel reproduce it exactly on
every input on which the JS call returns.  `!checkGroup.parentId` is JS
truthiness: an empty-string `parentId` stops the walk with `false`. -/
def isDescendant (groups : List TabGroup) (checkId ancestorId : String) : Nat → Bool
  | 0 => false
  | fuel + 1 =>
    match lookupGroup groups checkId with
    | none => false
    | some g =>
      match g.parentId with
      | none => false
      | some p =>
        if p = "" then false
        else if p = ancestorId then true
        else isDescendant groups p ancestorId fuel

/-- `moveGroupToParent` from `src/unnamed/part_003` lines 272–307.  The pair
is the `(tabs, groups)` state passed to `save`; the tabs component is always
passed through unchanged.  `targetParentId && isDescendant(...)` and
`targetParentId || undefined` are JS truthiness on the
`string | null` argument. -/
def moveGroupToParent (tabs : List DashboardTab) (groups : List TabGroup)
    (groupId : String) (targetParentId : Option String) :
    List DashboardTab × List TabGroup :=
  match lookupGroup groups groupId with
  | none => (tabs, groups)
  | some _ =>
    if targetParentId == some groupId then (tabs, groups)
    else
      let descBlock :=
        match targetParentId with
        | some t => if t = "" then false else isDescendant groups t groupId (groups.length + 1)
        | none => false
      if descBlock then (tabs, groups)
      else
        let newGroups := groups.map (fun g =>
          if g.id == groupId then { g with parentId := normOpt targetParentId } else g)
        let sameLevelGroups := newGroups.filter (fun g =>
          normOpt g.parentId == normOpt targetParentId && g.id != groupId)
        let maxOrder := ((sameLevelGroups.map (fun g => g.order)).max?).getD (-1)
        let updatedGroups := newGroups.map (fun g =>
          if g.id == groupId then { g with order := maxOrder + 1 } else g)
        (tabs, updatedGroups)

/-! ## `src/app/api/user-configs/tab-inputs/route.ts` -/

/-- The document stored in the `tab_inputs` collection, as read back by the
GET handler: the `inputs` field may be missing. -/
structure StoredTabInputsDoc where
  inputs : Option (List TabInput) := none
deriving DecidableEq, Repr

/-- Outcome of the GET handler. -/
inductive GetTabInputsResult
  | status400 (error : String)
  | status500 (error : String)
  | ok (tabId : String) (inputs : List TabInput)
deriving DecidableEq, Repr

/-- The GET handler (`route.ts` lines 8–39).  `tabId` is the query
parameter (`none` when absent); `dbResult` models the document-store call,
which may throw (`Except.error`) or return the stored document if any.
`if (!tabId)` is JS truthiness: an empty-string parameter is rejected too.
`doc.inputs || []` only replaces a missing field (arrays are truthy). -/
def getTabInputs (tabId : Option String)
    (dbResult : Except String (Option StoredTabInputsDoc)) : GetTabInputsResult :=
  match tabId with
  | none => .status400 "tabId is required"
  | some tid =>
    if tid = "" then .status400 "tabId is required"
    else
      match dbResult with
      | .error _ => .status500 "Failed to fetch tab inputs"
      | .ok none => .ok tid []
      | .ok (some doc) => .ok tid (doc.inputs.getD [])

/-- Outcome of the POST handler.  `saved` carries the `inputs` array written
to the store. -/
inductive PostTabInputsResult
  | status400 (error : String)
  | status500 (error : String)
  | saved (tabId : String) (inputs : List TabInput)
deriving DecidableEq, Repr

/-- The per-element normalisation of the POST handler: the request's
`tabId` and the array index overwrite whatever the client sent, and
`createdAt: input.createdAt || now` is JS truthiness (an empty string is
replaced by `now`). -/
def sanitizeStoredInput (tabId : String) (now : String) (index : Nat)
    (input : TabInput) : TabInput :=
  { input with
    tabId := tabId
    order := some (Int.ofNat index)
    updatedAt := some now
    createdAt := some ((normOpt input.createdAt).getD now) }

/-- The POST handler (`route.ts` lines 42–93).  `inputs = none` models a
body whose `inputs` field is missing or not an array; `dbOk` models the
`updateOne` call. -/
def postTabInputs (tabId : Option String) (inputs : Option (List TabInput))
    (now : String) (dbOk : Except String Unit) : PostTabInputsResult :=
  match tabId with
  | none => .status400 "tabId is required"
  | some tid =>
    if tid = "" then .status400 "tabId is required"
    else
      match inputs with
      | none => .status400 "inputs must be an array"
      | some l =>
        match dbOk with
        | .error _ => .status500 "Failed to save tab inputs"
        | .ok _ => .saved tid (l.mapIdx (sanitizeStoredInput tid now))

/-! ## The parent chain of a groups list

`ascends groups x fuel` follows `parentId` links from id `x` (via
`groups.find`) and returns `true` when a root — a missing group or a group
with no `parentId` — is reached within `fuel` steps.  `Acyclic` is the
property named by the specification: from every group the chain of
`parentId` links eventually reaches a root.  `reachesAncestor` follows the
same chain and succeeds when a link equal to `a` is found; `Descendant`
is the corresponding unbounded relation.  -/

/-- One step of the parent chain (`none` once a root has been reached). -/
def pnext (groups : List TabGroup) : Option String → Option String
  | none => none
  | some x =>
    match lookupGroup groups x with
    | none => none
    | some g => g.parentId

/-- Fueled parent-chain walk: does the chain from `x` reach a root within
`fuel` steps? -/
def ascends (groups : List TabGroup) (x : String) : Nat → Bool
  | 0 => false
  | fuel + 1 =>
    match lookupGroup groups x with
    | none => true
    | some g =>
      match g.parentId with
      | none => true
      | some p => ascends groups p fuel

/-- The parentId relation is acyclic: following `parentId` links from any
group eventually reaches a root. -/
def Acyclic (groups : List TabGroup) : Prop :=
  ∀ g ∈ groups, ∃ fuel, ascends groups g.id fuel = true

/-- Acyclicity witnessed inside the uniform fuel bound `groups.length + 1`;
equivalent to `Acyclic` (`acyclic_iff_within`) and decidable. -/
def AcyclicWithin (groups : List TabGroup) : Prop :=
  ∀ g ∈ groups, ascends groups g.id (groups.length + 1) = true

instance (groups : List TabGroup) : Decidable (AcyclicWithin groups) :=
  List.decidableBAll _ groups

/-- Fueled ancestor search: does the chain of `parentId` links from `x`
contain a link equal to `a` within `fuel` steps? -/
def reachesAncestor (groups : List TabGroup) (x a : String) : Nat → Bool
  | 0 => false
  | fuel + 1 =>
    match lookupGroup groups x with
    | none => false
    | some g =>
      match g.parentId with
      | none => false
      | some p => if p = a then true else reachesAncestor groups p a fuel

/-- One step of the ancestor search, as a function to iterate: `none` is
the success state, a dead end sticks at itself. -/
def rnext (groups : List TabGroup) (a : String) : Option String → Option String
  | none => none
  | some x =>
    match lookupGroup groups x with
    | none => some x
    | some g =>
      match g.parentId with
      | none => some x
      | some p => if p = a then none else some p

/-- `x` is a (strict) descendant of `a`: the parent chain from `x` contains
a link equal to `a`. -/
def Descendant (groups : List TabGroup) (x a : String) : Prop :=
  ∃ fuel, reachesAncestor groups x a fuel = true

/-- No group has the empty string as its id. -/
def NoEmptyGroupId (groups : List TabGroup) : Prop :=
  ∀ g ∈ groups, g.id ≠ ""

instance (groups : List TabGroup) : Decidable (NoEmptyGroupId groups) :=
  List.decidableBAll _ groups

/-- Forget the `order` field of a group (used to state that a reorder
changes nothing but `order`). -/
def stripGroupOrder (g : TabGroup) : TabGroup := { g with order := 0 }

/-- Forget the `order` field of an input. -/
def stripInputOrder (i : TabInput) : TabInput := { i with order := none }

/-- The base candidate of `ensureUniqueKey`: the sanitized key, or the
fallback `"input"` when sanitization yields the empty string. -/
def baseCandidate (desiredKey : String) : String :=
  if sanitizeKey desiredKey = "" then "input" else sanitizeKey desiredKey

/-- The finite set of states the walks can move to: `some` of a parentId
occurring in the list, plus the success state `none`. -/
def parentTargets (groups : List TabGroup) : Finset (Option String) :=
  (groups.filterMap (fun g => g.parentId)).toFinset.image some

/-- The `maxOrder` computed by `moveGroupToParent` once the guards have
passed: the maximal `order` among the groups other than `groupId` sitting
at the target level, `-1` when there is none. -/
def moveMax (groups : List TabGroup) (groupId : String) (target : Option String) : Int :=
  (((groups.map (fun g =>
      if g.id == groupId then { g with parentId := normOpt target } else g)).filter
    (fun g => normOpt g.parentId == normOpt target && g.id != groupId)).map
      (fun g => g.order)).max?.getD (-1)

/-- The groups list produced by a performed move: the moved group (every
group with that id) gets the normalized target parent and order
`moveMax + 1`; every other group is untouched. -/
def movedGroups (groups : List TabGroup) (groupId : String) (target : Option String) :
    List TabGroup :=
  groups.map (fun g =>
    if g.id == groupId then
      { g with parentId := normOpt target, order := moveMax groups groupId target + 1 }
    else g)

/-! ## Properties of the decimal rendering -/

theorem digChar_toNat_sub (d : Nat) (hd : d < 10) : (digChar d).toNat - 48 = d := by
  interval_cases d <;> rfl

theorem keyChar_digChar (d : Nat) (hd : d < 10) : keyChar (digChar d) = true := by
  interval_cases d <;> rfl

theorem foldl_decDigitsAux (fuel : Nat) :
    ∀ n acc : Nat, n ≤ fuel →
      (decDigitsAux fuel n).foldl (fun a c => a * 10 + (c.toNat - 48)) acc
        = acc * 10 ^ (decDigitsAux fuel n).length + n := by
  induction fuel with
  | zero =>
    intro n acc h
    interval_cases n
    simp [decDigitsAux]
  | succ fuel ih =>
    intro n acc h
    by_cases hn : n = 0
    · subst hn; simp [decDigitsAux]
    · have hpos : 0 < n := Nat.pos_of_ne_zero hn
      have hlt : n / 10 < n := Nat.div_lt_self hpos (by norm_num)
      have h10 : n / 10 ≤ fuel := by omega
      have hmod : n % 10 < 10 := Nat.mod_lt _ (by norm_num)
      have hdm : n / 10 * 10 + n % 10 = n := by omega
      simp only [decDigitsAux, if_neg hn, List.foldl_append, List.foldl_cons, List.foldl_nil,
        List.length_append, List.length_cons, List.length_nil]
      rw [ih _ acc h10, digChar_toNat_sub _ hmod]
      calc (acc * 10 ^ (decDigitsAux fuel (n / 10)).length + n / 10) * 10 + n % 10
          = acc * (10 ^ (decDigitsAux fuel (n / 10)).length * 10)
              + (n / 10 * 10 + n % 10) := by ring
        _ = acc * 10 ^ ((decDigitsAux fuel (n / 10)).length + (0 + 1)) + n := by
              rw [hdm, pow_succ]

theorem decVal_natToDec (n : Nat) : decVal (natToDec n).data = n := by
  by_cases hn : n = 0
  · subst hn; rfl
  · have : decVal (decDigitsAux n n) = n := by
      have := foldl_decDigitsAux n n 0 le_rfl
      simpa [decVal] using this
    simpa [natToDec, hn, decVal] using this

theorem natToDec_injective : Function.Injective natToDec := by
  intro m n h
  have h2 := congrArg (fun s => decVal s.data) h
  simpa [decVal_natToDec] using h2

theorem keyChar_mem_decDigitsAux (fuel : Nat) :
    ∀ n c, c ∈ decDigitsAux fuel n → keyChar c = true := by
  induction fuel with
  | zero => intro n c hc; simp [decDigitsAux] at hc
  | succ fuel ih =>
    intro n c hc
    by_cases hn : n = 0
    · subst hn; simp [decDigitsAux] at hc
    · simp only [decDigitsAux, if_neg hn, List.mem_append, List.mem_singleton] at hc
      rcases hc with hc | rfl
      · exact ih _ _ hc
      · exact keyChar_digChar _ (Nat.mod_lt _ (by norm_num))

theorem keyChar_mem_natToDec (n : Nat) : ∀ c ∈ (natToDec n).data, keyChar c = true := by
  intro c hc
  by_cases hn : n = 0
  · subst hn; simp [natToDec] at hc; subst hc; rfl
  · simp only [natToDec, if_neg hn] at hc
    exact keyChar_mem_decDigitsAux n n c hc

/-! ## The `ensureUniqueKey` loop always finds a fresh key -/

theorem candidateAt_injective (base : String) : Function.Injective (candidateAt base) := by
  intro i j h
  match i, j with
  | 0, 0 => rfl
  | 0, j + 1 =>
    exfalso
    have hl := congrArg String.length h
    simp only [candidateAt, String.length_append] at hl
    have h1 : ("_" : String).length = 1 := rfl
    omega
  | i + 1, 0 =>
    exfalso
    have hl := congrArg String.length h
    simp only [candidateAt, String.length_append] at hl
    have h1 : ("_" : String).length = 1 := rfl
    omega
  | i + 1, j + 1 =>
    have hd := congrArg String.data h
    simp only [candidateAt, String.data_append] at hd
    have hd2 := List.append_cancel_left hd
    have : natToDec (i + 1) = natToDec (j + 1) := String.ext hd2
    have := natToDec_injective this
    omega

theorem exists_candidate_not_mem (existing : List String) (base : String) :
    ∃ j, j ≤ existing.length ∧ candidateAt base j ∉ existing := by
  by_contra hcon
  push_neg at hcon
  have hmaps : ∀ j ∈ Finset.range (existing.length + 1),
      candidateAt base j ∈ existing.toFinset := by
    intro j hj
    simp only [Finset.mem_range] at hj
    simpa [List.mem_toFinset] using hcon j (by omega)
  have hinj : Set.InjOn (candidateAt base) (Finset.range (existing.length + 1)) :=
    fun a _ b _ hab => candidateAt_injective base hab
  have hcard := Finset.card_le_card_of_injOn _ hmaps hinj
  simp only [Finset.card_range] at hcard
  have := existing.toFinset_card_le
  omega

theorem firstFreeKey_not_mem (existing : List String) (base : String) :
    ∀ fuel k, (∃ j, k ≤ j ∧ j ≤ k + fuel ∧ candidateAt base j ∉ existing) →
      firstFreeKey existing base fuel k ∉ existing := by
  intro fuel
  induction fuel with
  | zero =>
    rintro k ⟨j, h1, h2, h3⟩
    have : j = k := by omega
    subst this
    simpa [firstFreeKey] using h3
  | succ fuel ih =>
    rintro k ⟨j, h1, h2, h3⟩
    by_cases hc : existing.contains (candidateAt base k) = true
    · rw [firstFreeKey, if_pos hc]
      apply ih
      have hkmem : candidateAt base k ∈ existing := List.elem_iff.mp hc
      have hjk : j ≠ k := by rintro rfl; exact h3 hkmem
      exact ⟨j, by omega, by omega, h3⟩
    · rw [firstFreeKey, if_neg hc]
      intro hmem
      exact hc (List.elem_iff.mpr hmem)

/-- The key chosen by `ensureUniqueKey` differs from the key of every input
whose id differs from `excludeId` (the first part of claim C3). -/
theorem ensureUniqueKey_not_mem (inputs : List TabInput) (dk : String) (ex : Option String) :
    ensureUniqueKey inputs dk ex ∉
      (inputs.filter (fun input => some input.id != ex)).map (fun input => input.key) := by
  unfold ensureUniqueKey
  apply firstFreeKey_not_mem
  obtain ⟨j, hj, hnm⟩ := exists_candidate_not_mem
    ((inputs.filter (fun input => some input.id != ex)).map (fun input => input.key))
    (if sanitizeKey dk = "" then "input" else sanitizeKey dk)
  exact ⟨j, by omega, by omega, hnm⟩

theorem firstFreeKey_eq_candidateAt (existing : List String) (base : String) :
    ∀ fuel k, ∃ j, firstFreeKey existing base fuel k = candidateAt base j := by
  intro fuel
  induction fuel with
  | zero => intro k; exact ⟨k, rfl⟩
  | succ fuel ih =>
    intro k
    by_cases hc : existing.contains (candidateAt base k) = true
    · rw [firstFreeKey, if_pos hc]; exact ih (k + 1)
    · rw [firstFreeKey, if_neg hc]; exact ⟨k, rfl⟩

/-! ## Shape of the sanitized keys (claim C4) -/

theorem sanitizeKey_length (k : String) : (sanitizeKey k).length ≤ 50 := by
  simp only [sanitizeKey, String.length]
  calc (((collapseWS false (k.data.map Char.toLower)).filter keyChar).take 50).length
      ≤ 50 := by rw [List.length_take]; omega

theorem sanitizeKey_chars (k : String) : ∀ c ∈ (sanitizeKey k).data, keyChar c = true := by
  intro c hc
  simp only [sanitizeKey] at hc
  have := List.mem_of_mem_take hc
  exact List.of_mem_filter this

theorem baseCandidate_ne_empty (dk : String) : baseCandidate dk ≠ "" := by
  unfold baseCandidate
  by_cases h : sanitizeKey dk = ""
  · rw [if_pos h]; decide
  · rw [if_neg h]; exact h

theorem baseCandidate_length (dk : String) : (baseCandidate dk).length ≤ 50 := by
  unfold baseCandidate
  by_cases h : sanitizeKey dk = ""
  · rw [if_pos h]; decide
  · rw [if_neg h]; exact sanitizeKey_length dk

theorem baseCandidate_chars (dk : String) : ∀ c ∈ (baseCandidate dk).data, keyChar c = true := by
  unfold baseCandidate
  by_cases h : sanitizeKey dk = ""
  · rw [if_pos h]; decide
  · rw [if_neg h]; exact sanitizeKey_chars dk

theorem candidateAt_ne_empty (base : String) (hb : base ≠ "") (k : Nat) :
    candidateAt base k ≠ "" := by
  match k with
  | 0 => exact hb
  | k + 1 =>
    intro h
    have hl := congrArg String.length h
    simp only [candidateAt, String.length_append] at hl
    have h1 : ("_" : String).length = 1 := rfl
    have h0 : ("" : String).length = 0 := rfl
    omega

theorem candidateAt_chars (base : String) (hb : ∀ c ∈ base.data, keyChar c = true) (k : Nat) :
    ∀ c ∈ (candidateAt base k).data, keyChar c = true := by
  match k with
  | 0 => exact hb
  | k + 1 =>
    intro c hc
    simp only [candidateAt, String.data_append, List.mem_append] at hc
    rcases hc with (hc | hc) | hc
    · exact hb c hc
    · have : c = '_' := by simpa using hc
      subst this; rfl
    · exact keyChar_mem_natToDec _ c hc

/-- Every key `ensureUniqueKey` can return is `base` or `base_k` for the
(non-empty, at most 50 characters, `[a-z0-9_]`-only) sanitized base. -/
theorem ensureUniqueKey_shape (inputs : List TabInput) (dk : String) (ex : Option String) :
    ∃ j, ensureUniqueKey inputs dk ex = candidateAt (baseCandidate dk) j := by
  unfold ensureUniqueKey baseCandidate
  exact firstFreeKey_eq_candidateAt _ _ _ _

/-! ## Iteration bound: a deterministic walk over a finite set of states
that reaches an absorbing state reaches it within `card + 1` steps. -/

theorem iterate_reach_bound {α : Type} [DecidableEq α] (f : α → α) (z : α) (hz : f z = z)
    (D : Finset α) (hcond : ∀ b, f b = z ∨ f b = b ∨ f b ∈ D) (x : α) (k : Nat)
    (hk : f^[k] x = z) : f^[D.card + 1] x = z := by
  have hex : ∃ m, f^[m] x = z := ⟨k, hk⟩
  set m := Nat.find hex with hmdef
  have hm : f^[m] x = z := Nat.find_spec hex
  have hmin : ∀ i, i < m → f^[i] x ≠ z := fun i hi => Nat.find_min hex hi
  have hle : m ≤ D.card + 1 := by
    by_contra hgt
    push_neg at hgt
    have hmaps : ∀ i ∈ Finset.Icc 1 (m - 1), f^[i] x ∈ D := by
      intro i hi
      simp only [Finset.mem_Icc] at hi
      obtain ⟨hi1, hi2⟩ := hi
      obtain ⟨i', rfl⟩ : ∃ i', i = i' + 1 := ⟨i - 1, by omega⟩
      rw [Function.iterate_succ_apply']
      rcases hcond (f^[i'] x) with hc | hc | hc
      · exfalso
        have hstep : f^[i' + 1] x = z := by rw [Function.iterate_succ_apply']; exact hc
        exact hmin (i' + 1) (by omega) hstep
      · exfalso
        have hfix : ∀ d, f^[d] (f^[i'] x) = f^[i'] x := fun d => Function.iterate_fixed hc d
        have : f^[m] x = f^[i'] x := by
          have : f^[(m - i') + i'] x = f^[m - i'] (f^[i'] x) := Function.iterate_add_apply f _ _ x
          rw [show (m - i') + i' = m by omega] at this
          rw [this, hfix]
        exact hmin i' (by omega) (by rw [← this, hm])
      · exact hc
    have hinj : Set.InjOn (fun i => f^[i] x) (Finset.Icc 1 (m - 1)) := by
      intro i hi j hj hij
      simp only [Finset.coe_Icc, Set.mem_Icc] at hi hj
      have hij2 : f^[i] x = f^[j] x := hij
      by_contra hne
      rcases Nat.lt_or_ge i j with hlt | hge
      · have : f^[(m - j) + i] x = z := by
          rw [Function.iterate_add_apply, hij2, ← Function.iterate_add_apply,
            show (m - j) + j = m by omega, hm]
        exact hmin _ (by omega) this
      · have hlt2 : j < i := by omega
        have : f^[(m - i) + j] x = z := by
          rw [Function.iterate_add_apply, ← hij2, ← Function.iterate_add_apply,
            show (m - i) + i = m by omega, hm]
        exact hmin _ (by omega) this
    have hcard := Finset.card_le_card_of_injOn _ hmaps hinj
    rw [Nat.card_Icc] at hcard
    omega
  have : f^[(D.card + 1 - m) + m] x = z := by
    rw [Function.iterate_add_apply, hm, Function.iterate_fixed hz]
  rwa [show (D.card + 1 - m) + m = D.card + 1 by omega] at this

/-! ## Bridges between the fueled walks and function iteration -/

theorem ascends_iff_pnext (groups : List TabGroup) :
    ∀ fuel x, ascends groups x fuel = true ↔ (pnext groups)^[fuel] (some x) = none := by
  intro fuel
  induction fuel with
  | zero => intro x; simp [ascends]
  | succ fuel ih =>
    intro x
    rw [ascends, Function.iterate_succ_apply]
    match hg : lookupGroup groups x with
    | none =>
      simp only [pnext, hg]
      constructor
      · intro _; exact Function.iterate_fixed rfl fuel
      · intro _; trivial
    | some g =>
      match hp : g.parentId with
      | none =>
        simp only [pnext, hg, hp]
        constructor
        · intro _; exact Function.iterate_fixed rfl fuel
        · intro _; trivial
      | some p =>
        simp only [pnext, hg, hp]
        exact ih p

theorem reachesAncestor_iff_rnext (groups : List TabGroup) (a : String) :
    ∀ fuel x, reachesAncestor groups x a fuel = true ↔
      (rnext groups a)^[fuel] (some x) = none := by
  intro fuel
  induction fuel with
  | zero => intro x; simp [reachesAncestor]
  | succ fuel ih =>
    intro x
    rw [reachesAncestor, Function.iterate_succ_apply]
    match hg : lookupGroup groups x with
    | none =>
      simp only [rnext, hg]
      rw [Function.iterate_fixed (by simp [rnext, hg]) fuel]
      simp
    | some g =>
      match hp : g.parentId with
      | none =>
        simp only [rnext, hg, hp]
        rw [Function.iterate_fixed (by simp [rnext, hg, hp]) fuel]
        simp
      | some p =>
        by_cases hpa : p = a
        · simp only [rnext, hg, hp, if_pos hpa]
          rw [Function.iterate_fixed rfl fuel]
          simp
        · simp only [rnext, hg, hp, if_neg hpa]
          exact ih p



theorem parentTargets_card_le (groups : List TabGroup) :
    (parentTargets groups).card ≤ groups.length :=
  le_trans (Finset.card_image_le)
    (le_trans (groups.filterMap (fun g => g.parentId)).toFinset_card_le
      (List.length_filterMap_le _ _))

theorem pnext_cond (groups : List TabGroup) (b : Option String) :
    pnext groups b = none ∨ pnext groups b = b ∨ pnext groups b ∈ parentTargets groups := by
  match b with
  | none => exact Or.inl rfl
  | some x =>
    match hg : lookupGroup groups x with
    | none => exact Or.inl (by simp [pnext, hg])
    | some g =>
      match hp : g.parentId with
      | none => exact Or.inl (by simp [pnext, hg, hp])
      | some p =>
        refine Or.inr (Or.inr ?_)
        simp only [pnext, hg, hp, parentTargets, Finset.mem_image, List.mem_toFinset,
          List.mem_filterMap]
        exact ⟨p, ⟨g, List.mem_of_find?_eq_some hg, hp⟩, rfl⟩

theorem rnext_cond (groups : List TabGroup) (a : String) (b : Option String) :
    rnext groups a b = none ∨ rnext groups a b = b ∨
      rnext groups a b ∈ parentTargets groups := by
  match b with
  | none => exact Or.inl rfl
  | some x =>
    match hg : lookupGroup groups x with
    | none => exact Or.inr (Or.inl (by simp [rnext, hg]))
    | some g =>
      match hp : g.parentId with
      | none => exact Or.inr (Or.inl (by simp [rnext, hg, hp]))
      | some p =>
        by_cases hpa : p = a
        · exact Or.inl (by simp [rnext, hg, hp, hpa])
        · refine Or.inr (Or.inr ?_)
          simp only [rnext, hg, hp, if_neg hpa, parentTargets, Finset.mem_image,
            List.mem_toFinset, List.mem_filterMap]
          exact ⟨p, ⟨g, List.mem_of_find?_eq_some hg, hp⟩, rfl⟩

/-- Fuel monotonicity through the absorbing state. -/
theorem iterate_none_mono {α : Type} (f : α → α) (z : α) (hz : f z = z) {k k' : Nat}
    (hkk : k ≤ k') (x : α) (hk : f^[k] x = z) : f^[k'] x = z := by
  have : f^[(k' - k) + k] x = z := by
    rw [Function.iterate_add_apply, hk, Function.iterate_fixed hz]
  rwa [show (k' - k) + k = k' by omega] at this

/-- Compression: a parent chain that terminates at all terminates within
`groups.length + 1` steps. -/
theorem ascends_bound (groups : List TabGroup) (x : String) (fuel : Nat)
    (h : ascends groups x fuel = true) : ascends groups x (groups.length + 1) = true := by
  rw [ascends_iff_pnext] at h ⊢
  have hb := iterate_reach_bound (pnext groups) none rfl (parentTargets groups)
    (pnext_cond groups) (some x) fuel h
  exact iterate_none_mono _ _ rfl (by have := parentTargets_card_le groups; omega) _ hb

/-- Compression for the ancestor search. -/
theorem reachesAncestor_bound (groups : List TabGroup) (x a : String) (fuel : Nat)
    (h : reachesAncestor groups x a fuel = true) :
    reachesAncestor groups x a (groups.length + 1) = true := by
  rw [reachesAncestor_iff_rnext] at h ⊢
  have hb := iterate_reach_bound (rnext groups a) none rfl (parentTargets groups)
    (rnext_cond groups a) (some x) fuel h
  exact iterate_none_mono _ _ rfl (by have := parentTargets_card_le groups; omega) _ hb

theorem acyclic_iff_within (groups : List TabGroup) :
    Acyclic groups ↔ AcyclicWithin groups := by
  constructor
  · intro h g hg
    obtain ⟨fuel, hf⟩ := h g hg
    exact ascends_bound groups g.id fuel hf
  · intro h g hg
    exact ⟨groups.length + 1, h g hg⟩

theorem descendant_iff_within (groups : List TabGroup) (x a : String) :
    Descendant groups x a ↔ reachesAncestor groups x a (groups.length + 1) = true := by
  constructor
  · rintro ⟨fuel, hf⟩
    exact reachesAncestor_bound groups x a fuel hf
  · intro h
    exact ⟨groups.length + 1, h⟩

/-! ## `isDescendant` versus the ancestor-search walk -/

theorem lookupGroup_id {groups : List TabGroup} {x : String} {g : TabGroup}
    (h : lookupGroup groups x = some g) : g.id = x := by
  have := List.find?_some h
  simpa using this

theorem lookupGroup_mem {groups : List TabGroup} {x : String} {g : TabGroup}
    (h : lookupGroup groups x = some g) : g ∈ groups :=
  List.mem_of_find?_eq_some h

theorem lookupGroup_empty_eq_none (groups : List TabGroup) (hne : NoEmptyGroupId groups) :
    lookupGroup groups "" = none := by
  apply List.find?_eq_none.mpr
  intro g hg
  simpa using hne g hg

theorem reachesAncestor_from_empty (groups : List TabGroup) (hne : NoEmptyGroupId groups)
    (a : String) (fuel : Nat) : reachesAncestor groups "" a fuel = false := by
  cases fuel with
  | zero => rfl
  | succ fuel => rw [reachesAncestor, lookupGroup_empty_eq_none groups hne]

/-- `isDescendant` only ever answers `true` when the ancestor search does:
the extra empty-string cutoff (`!checkGroup.parentId`) can only prune. -/
theorem isDescendant_imp_reaches (groups : List TabGroup) (a : String) :
    ∀ fuel x, isDescendant groups x a fuel = true → reachesAncestor groups x a fuel = true := by
  intro fuel
  induction fuel with
  | zero => intro x h; simp [isDescendant] at h
  | succ fuel ih =>
    intro x h
    cases hg : lookupGroup groups x with
    | none => simp [isDescendant, hg] at h
    | some g =>
      cases hp : g.parentId with
      | none => simp [isDescendant, hg, hp] at h
      | some p =>
        by_cases hpe : p = ""
        · simp [isDescendant, hg, hp, hpe] at h
        · by_cases hpa : p = a
          · simp [reachesAncestor, hg, hp, hpa]
          · simp only [isDescendant, hg, hp, if_neg hpe, if_neg hpa] at h
            simp only [reachesAncestor, hg, hp, if_neg hpa]
            exact ih p h

/-- When no group has the empty id and the ancestor is non-empty, the
empty-string cutoff makes no difference: `isDescendant` computes exactly
the ancestor search. -/
theorem isDescendant_eq_reaches (groups : List TabGroup) (hne : NoEmptyGroupId groups)
    (a : String) (ha : a ≠ "") :
    ∀ fuel x, isDescendant groups x a fuel = reachesAncestor groups x a fuel := by
  intro fuel
  induction fuel with
  | zero => intro x; rfl
  | succ fuel ih =>
    intro x
    cases hg : lookupGroup groups x with
    | none => simp [isDescendant, reachesAncestor, hg]
    | some g =>
      cases hp : g.parentId with
      | none => simp [isDescendant, reachesAncestor, hg, hp]
      | some p =>
        by_cases hpe : p = ""
        · subst hpe
          have ha2 : ¬("" = a) := fun h => ha h.symm
          simp [isDescendant, reachesAncestor, hg, hp, ha2,
            reachesAncestor_from_empty groups hne a fuel]
        · by_cases hpa : p = a
          · simp [isDescendant, reachesAncestor, hg, hp, hpe, hpa, ha]
          · simp only [isDescendant, reachesAncestor, hg, hp, if_neg hpe, if_neg hpa]
            exact ih p

/-! ## The effect of a performed `moveGroupToParent` on the groups list -/

theorem moveGroupToParent_moves (tabs : List DashboardTab) (groups : List TabGroup)
    (groupId : String) (target : Option String) (g0 : TabGroup)
    (hfound : lookupGroup groups groupId = some g0)
    (hne1 : target ≠ some groupId)
    (hdesc : ∀ t, target = some t → t ≠ "" →
      isDescendant groups t groupId (groups.length + 1) = false) :
    moveGroupToParent tabs groups groupId target
      = (tabs, movedGroups groups groupId target) := by
  have hne1b : (target == some groupId) = false := by
    simpa using hne1
  have hmap : ∀ (M : Int),
      (groups.map (fun g =>
          if g.id == groupId then { g with parentId := normOpt target } else g)).map
        (fun g => if g.id == groupId then { g with order := M + 1 } else g)
      = groups.map (fun g =>
          if g.id == groupId then
            { g with parentId := normOpt target, order := M + 1 }
          else g) := by
    intro M
    rw [List.map_map]
    apply List.map_congr_left
    intro g _
    by_cases h : (g.id == groupId) = true
    · simp only [Function.comp_apply, if_pos h]
    · simp only [Function.comp_apply, if_neg h]
  cases target with
  | none =>
    simp only [moveGroupToParent, hfound, hne1b, Bool.false_eq_true, if_false]
    rw [movedGroups, moveMax, ← hmap]
  | some t =>
    by_cases ht : t = ""
    · subst ht
      simp only [moveGroupToParent, hfound, hne1b, Bool.false_eq_true, if_false, if_true]
      rw [movedGroups, moveMax, ← hmap]
    · have hd := hdesc t rfl ht
      have hcond : (if t = "" then false
          else isDescendant groups t groupId (groups.length + 1)) = false := by
        rw [if_neg ht]; exact hd
      simp only [moveGroupToParent, hfound, hne1b, Bool.false_eq_true, if_false, hcond]
      rw [movedGroups, moveMax, ← hmap]

theorem lookupGroup_movedGroups (groups : List TabGroup) (groupId : String)
    (target : Option String) (x : String) :
    lookupGroup (movedGroups groups groupId target) x
      = (lookupGroup groups x).map (fun g =>
          if g.id == groupId then
            { g with parentId := normOpt target, order := moveMax groups groupId target + 1 }
          else g) := by
  unfold lookupGroup movedGroups
  rw [List.find?_map]
  have hpred : ((fun g => g.id == x) ∘ fun g =>
      if g.id == groupId then
        { g with parentId := normOpt target, order := moveMax groups groupId target + 1 }
      else g) = (fun g : TabGroup => g.id == x) := by
    funext g
    by_cases h : (g.id == groupId) = true
    · simp only [Function.comp_apply, if_pos h]
    · simp only [Function.comp_apply, if_neg h]
  rw [hpred]

/-! ## A performed move preserves termination of every parent chain -/

theorem ifBeqTrue {α : Type} {c : Bool} (h : c = true) (a b : α) :
    (if c = true then a else b) = a := by
  rw [h]; rfl

theorem ifBeqFalse {α : Type} {c : Bool} (h : c = false) (a b : α) :
    (if c = true then a else b) = b := by
  rw [h]; rfl

/-- A chain that terminates without ever stepping onto `groupId` is
untouched by the move. -/
theorem ascends_moved_of_avoid (groups : List TabGroup) (groupId : String)
    (target : Option String) :
    ∀ fuel x, ascends groups x fuel = true → x ≠ groupId →
      (∀ f', reachesAncestor groups x groupId f' = false) →
      ascends (movedGroups groups groupId target) x fuel = true := by
  intro fuel
  induction fuel with
  | zero => intro x h _ _; simp [ascends] at h
  | succ fuel ih =>
    intro x h hx hreach
    cases hg : lookupGroup groups x with
    | none =>
      have hlook : lookupGroup (movedGroups groups groupId target) x = none := by
        rw [lookupGroup_movedGroups, hg]; rfl
      simp [ascends, hlook]
    | some g =>
      have hgid : g.id = x := lookupGroup_id hg
      have hgne : (g.id == groupId) = false := by
        rw [hgid]; exact beq_eq_false_iff_ne.mpr hx
      have hlook : lookupGroup (movedGroups groups groupId target) x = some g := by
        rw [lookupGroup_movedGroups, hg]
        simp only [Option.map_some']
        rw [ifBeqFalse hgne]
      cases hp : g.parentId with
      | none => simp [ascends, hlook, hp]
      | some p =>
        have hold : ascends groups p fuel = true := by
          simpa [ascends, hg, hp] using h
        have hpne : p ≠ groupId := by
          intro he
          have hr : reachesAncestor groups x groupId 1 = true := by
            simp [reachesAncestor, hg, hp, he]
          rw [hreach 1] at hr
          exact Bool.noConfusion hr
        have hpreach : ∀ f', reachesAncestor groups p groupId f' = false := by
          intro f'
          by_contra hcon
          have hcon2 : reachesAncestor groups p groupId f' = true := by
            revert hcon; cases reachesAncestor groups p groupId f' <;> simp
          have hr : reachesAncestor groups x groupId (f' + 1) = true := by
            simp [reachesAncestor, hg, hp, hpne, hcon2]
          rw [hreach (f' + 1)] at hr
          exact Bool.noConfusion hr
        have hmoved := ih p hold hpne hpreach
        simpa [ascends, hlook, hp] using hmoved

/-- After a guarded move the chain from the moved group itself terminates:
one step to the target, whose old chain terminates and avoids `groupId`. -/
theorem ascends_moved_gid (groups : List TabGroup) (groupId : String)
    (target : Option String) (g0 : TabGroup)
    (hfound : lookupGroup groups groupId = some g0)
    (hacyc : Acyclic groups) (hne : NoEmptyGroupId groups)
    (hne1 : target ≠ some groupId)
    (hdesc : ∀ t, target = some t → t ≠ "" →
      isDescendant groups t groupId (groups.length + 1) = false) :
    ∃ fj, ascends (movedGroups groups groupId target) groupId fj = true := by
  have hg0id : g0.id = groupId := lookupGroup_id hfound
  have hg0eq : (g0.id == groupId) = true := by simp [hg0id]
  have hlook : lookupGroup (movedGroups groups groupId target) groupId
      = some { g0 with parentId := normOpt target, order := moveMax groups groupId target + 1 } := by
    rw [lookupGroup_movedGroups, hfound]
    simp only [Option.map_some']
    rw [ifBeqTrue hg0eq]
  cases hT : normOpt target with
  | none =>
    refine ⟨1, ?_⟩
    simp [ascends, hlook, hT]
  | some t =>
    have hts : target = some t ∧ t ≠ "" := by
      cases target with
      | none => simp [normOpt] at hT
      | some s =>
        by_cases hs : s = ""
        · simp [normOpt, hs] at hT
        · simp only [normOpt, if_neg hs, Option.some.injEq] at hT
          subst hT
          exact ⟨rfl, hs⟩
    obtain ⟨hts1, hts2⟩ := hts
    have htgid : t ≠ groupId := fun he => hne1 (by rw [hts1, he])
    have hgidne : groupId ≠ "" := by
      rw [← hg0id]; exact hne g0 (lookupGroup_mem hfound)
    have hreach : ∀ f', reachesAncestor groups t groupId f' = false := by
      intro f'
      by_contra hcon
      have hcon2 : reachesAncestor groups t groupId f' = true := by
        revert hcon; cases reachesAncestor groups t groupId f' <;> simp
      have hb := reachesAncestor_bound groups t groupId f' hcon2
      rw [← isDescendant_eq_reaches groups hne groupId hgidne] at hb
      rw [hdesc t hts1 hts2] at hb
      exact Bool.noConfusion hb
    cases hlt : lookupGroup groups t with
    | none =>
      refine ⟨2, ?_⟩
      have hlook2 : lookupGroup (movedGroups groups groupId target) t = none := by
        rw [lookupGroup_movedGroups, hlt]; rfl
      simp [ascends, hlook, hT, hlook2]
    | some gt =>
      have hgtid : gt.id = t := lookupGroup_id hlt
      obtain ⟨f, hf⟩ := hacyc gt (lookupGroup_mem hlt)
      rw [hgtid] at hf
      have hmoved := ascends_moved_of_avoid groups groupId target f t hf htgid hreach
      refine ⟨f + 1, ?_⟩
      simp only [ascends, hlook, hT]
      exact hmoved

/-- Every chain that terminated before the move terminates after it. -/
theorem ascends_moved_all (groups : List TabGroup) (groupId : String)
    (target : Option String)
    (hjump : ∃ fj, ascends (movedGroups groups groupId target) groupId fj = true) :
    ∀ fuel x, ascends groups x fuel = true →
      ∃ fx, ascends (movedGroups groups groupId target) x fx = true := by
  intro fuel
  induction fuel with
  | zero => intro x h; simp [ascends] at h
  | succ fuel ih =>
    intro x h
    by_cases hx : x = groupId
    · subst hx; exact hjump
    · cases hg : lookupGroup groups x with
      | none =>
        refine ⟨1, ?_⟩
        have hlook : lookupGroup (movedGroups groups groupId target) x = none := by
          rw [lookupGroup_movedGroups, hg]; rfl
        simp [ascends, hlook]
      | some g =>
        have hgne : (g.id == groupId) = false := by
          rw [lookupGroup_id hg]; exact beq_eq_false_iff_ne.mpr hx
        have hlook : lookupGroup (movedGroups groups groupId target) x = some g := by
          rw [lookupGroup_movedGroups, hg]
          simp only [Option.map_some']
          rw [ifBeqFalse hgne]
        cases hp : g.parentId with
        | none => exact ⟨1, by simp [ascends, hlook, hp]⟩
        | some p =>
          have hold : ascends groups p fuel = true := by
            simpa [ascends, hg, hp] using h
          obtain ⟨fx, hfx⟩ := ih p hold
          refine ⟨fx + 1, ?_⟩
          simp only [ascends, hlook, hp]
          exact hfx

/-! ## The blocked branches of `moveGroupToParent` -/

theorem moveGroupToParent_self (tabs : List DashboardTab) (groups : List TabGroup)
    (groupId : String) :
    moveGroupToParent tabs groups groupId (some groupId) = (tabs, groups) := by
  cases hg : lookupGroup groups groupId with
  | none => simp [moveGroupToParent, hg]
  | some g => simp [moveGroupToParent, hg]

theorem moveGroupToParent_desc_blocked (tabs : List DashboardTab) (groups : List TabGroup)
    (groupId t : String) (hne : NoEmptyGroupId groups)
    (hd : Descendant groups t groupId) :
    moveGroupToParent tabs groups groupId (some t) = (tabs, groups) := by
  cases hgl : lookupGroup groups groupId with
  | none => simp [moveGroupToParent, hgl]
  | some g0 =>
    by_cases htg : t = groupId
    · subst htg; exact moveGroupToParent_self tabs groups t
    · have hgidne : groupId ≠ "" := by
        rw [← lookupGroup_id hgl]; exact hne g0 (lookupGroup_mem hgl)
      have hte : t ≠ "" := by
        intro he; subst he
        obtain ⟨f, hf⟩ := hd
        rw [reachesAncestor_from_empty groups hne groupId f] at hf
        exact Bool.noConfusion hf
      have hdesc : isDescendant groups t groupId (groups.length + 1) = true := by
        rw [isDescendant_eq_reaches groups hne groupId hgidne]
        exact (descendant_iff_within groups t groupId).mp hd
      have hne2 : (some t == some groupId) = false := by
        simp [htg]
      simp [moveGroupToParent, hgl, hne2, hte, hdesc]

/-! ## Claim C1 -/

/-- C1 (amended): for every groups list in which the `parentId` relation is
acyclic and in which no group has the empty string as its id,
`moveGroupToParent` leaves the relation acyclic; and when the target equals
the moved group or is one of its descendants, the `(tabs, groups)` state is
returned completely unchanged.  (Without the empty-id proviso the claim is
false: see the counterexample, where JS truthiness on an empty-string
`parentId` blinds `isDescendant` and a cycle is created.) -/
theorem c1_moveGroupToParent_preserves_acyclic (tabs : List DashboardTab)
    (groups : List TabGroup) (groupId : String) (targetParentId : Option String)
    (hacyc : Acyclic groups) (hne : NoEmptyGroupId groups) :
    Acyclic (moveGroupToParent tabs groups groupId targetParentId).2 ∧
    ((targetParentId = some groupId ∨
        ∃ t, targetParentId = some t ∧ Descendant groups t groupId) →
      moveGroupToParent tabs groups groupId targetParentId = (tabs, groups)) := by
  constructor
  · cases hgl : lookupGroup groups groupId with
    | none =>
      have hun : moveGroupToParent tabs groups groupId targetParentId = (tabs, groups) := by
        simp [moveGroupToParent, hgl]
      rw [hun]
      exact hacyc
    | some g0 =>
      by_cases h1 : targetParentId = some groupId
      · subst h1
        rw [moveGroupToParent_self tabs groups groupId]
        exact hacyc
      · by_cases h2 : ∃ t, targetParentId = some t ∧ Descendant groups t groupId
        · obtain ⟨t, ht, hd⟩ := h2
          subst ht
          rw [moveGroupToParent_desc_blocked tabs groups groupId t hne hd]
          exact hacyc
        · push_neg at h2
          have hdesc : ∀ t, targetParentId = some t → t ≠ "" →
              isDescendant groups t groupId (groups.length + 1) = false := by
            intro t ht _
            by_contra hcon
            have hcon2 : isDescendant groups t groupId (groups.length + 1) = true := by
              revert hcon; cases isDescendant groups t groupId (groups.length + 1) <;> simp
            have hr := isDescendant_imp_reaches groups groupId _ t hcon2
            exact h2 t ht ⟨groups.length + 1, hr⟩
          rw [moveGroupToParent_moves tabs groups groupId targetParentId g0 hgl h1 hdesc]
          have hjump := ascends_moved_gid groups groupId targetParentId g0 hgl hacyc hne h1 hdesc
          intro g' hg'
          obtain ⟨g, hgmem, rfl⟩ := List.mem_map.mp hg'
          obtain ⟨f, hf⟩ := hacyc g hgmem
          have hid : (if g.id == groupId then
              { g with parentId := normOpt targetParentId, order := moveMax groups groupId targetParentId + 1 }
              else g).id = g.id := by
            by_cases h : (g.id == groupId) = true
            · rw [ifBeqTrue h]
            · rw [ifBeqFalse (Bool.eq_false_iff.mpr h)]
          rw [hid]
          exact ascends_moved_all groups groupId targetParentId hjump f g.id hf
  · rintro (h1 | ⟨t, ht, hd⟩)
    · subst h1; exact moveGroupToParent_self tabs groups groupId
    · subst ht; exact moveGroupToParent_desc_blocked tabs groups groupId t hne hd

/-- Witness for C1 at a concrete input: two groups `a ← b`, and `b` is
moved to the root. -/
theorem c1_witness :
    Acyclic [⟨"a", "A", 0, none⟩, ⟨"b", "B", 0, some "a"⟩] ∧
    NoEmptyGroupId [⟨"a", "A", 0, none⟩, ⟨"b", "B", 0, some "a"⟩] ∧
    (Acyclic (moveGroupToParent [] [⟨"a", "A", 0, none⟩, ⟨"b", "B", 0, some "a"⟩] "b" none).2 ∧
      ((none = some "b" ∨
          ∃ t, (none : Option String) = some t ∧
            Descendant [⟨"a", "A", 0, none⟩, ⟨"b", "B", 0, some "a"⟩] t "b") →
        moveGroupToParent [] [⟨"a", "A", 0, none⟩, ⟨"b", "B", 0, some "a"⟩] "b" none
          = ([], [⟨"a", "A", 0, none⟩, ⟨"b", "B", 0, some "a"⟩]))) :=
  ⟨(acyclic_iff_within _).mpr (by decide), by decide,
    c1_moveGroupToParent_preserves_acyclic [] [⟨"a", "A", 0, none⟩, ⟨"b", "B", 0, some "a"⟩]
      "b" none ((acyclic_iff_within _).mpr (by decide)) (by decide)⟩

/-- Counterexample to C1 as stated: the groups list
`a (root)`, `"" (child of a)`, `t (child of "")` is acyclic, yet
`moveGroupToParent("a", "t")` produces a cyclic list — `isDescendant`
treats the empty-string `parentId` of `t` as falsy and fails to see that
`t` is a descendant of `a` (the state also changes although the claim
demands it stay unchanged). -/
theorem c1_counterexample :
    Acyclic [⟨"a", "A", 0, none⟩, ⟨"", "E", 0, some "a"⟩, ⟨"t", "T", 0, some ""⟩] ∧
    ¬ Acyclic (moveGroupToParent []
        [⟨"a", "A", 0, none⟩, ⟨"", "E", 0, some "a"⟩, ⟨"t", "T", 0, some ""⟩]
        "a" (some "t")).2 :=
  ⟨(acyclic_iff_within _).mpr (by decide),
    fun h => absurd ((acyclic_iff_within _).mp h) (by decide)⟩

/-! ## Claims C4 and C3 -/

/-- C4 (amended): every key assigned through `ensureUniqueKey` — the only
way `addInput` assigns a key and the only way `updateInput` assigns a
changed key — is non-empty, consists only of lowercase ASCII letters,
digits and underscores, and is the sanitized base (lowercased, whitespace
runs replaced by `_`, every other character removed, truncated to 50
characters, fallback `"input"` when empty) possibly extended by one
uniqueness suffix `_k`; only such a suffix can push the key beyond 50
characters. -/
theorem c4_assigned_key_shape (inputs : List TabInput) (desiredKey : String)
    (excludeId : Option String) (tabId : String) (payload : InputPayload)
    (newId now : String) (id : String) (updates : InputPayload) :
    (ensureUniqueKey inputs desiredKey excludeId ≠ "" ∧
      (∀ c ∈ (ensureUniqueKey inputs desiredKey excludeId).data, keyChar c = true) ∧
      (baseCandidate desiredKey ≠ "" ∧ (baseCandidate desiredKey).length ≤ 50 ∧
        ∀ c ∈ (baseCandidate desiredKey).data, keyChar c = true) ∧
      ∃ k, ensureUniqueKey inputs desiredKey excludeId
        = candidateAt (baseCandidate desiredKey) k) ∧
    (∃ dk, (addInput inputs tabId payload newId now).map (fun i => i.key)
        = inputs.map (fun i => i.key) ++ [ensureUniqueKey inputs dk none]) ∧
    (∀ i ∈ updateInput inputs id updates now,
      i.key ∈ inputs.map (fun i2 => i2.key) ∨
        ∃ dk, i.key = ensureUniqueKey inputs dk (some id)) := by
  obtain ⟨k, hk⟩ := ensureUniqueKey_shape inputs desiredKey excludeId
  refine ⟨⟨?_, ?_, ⟨baseCandidate_ne_empty desiredKey, baseCandidate_length desiredKey,
      baseCandidate_chars desiredKey⟩, k, hk⟩, ?_, ?_⟩
  · rw [hk]; exact candidateAt_ne_empty _ (baseCandidate_ne_empty desiredKey) k
  · rw [hk]; exact candidateAt_chars _ (baseCandidate_chars desiredKey) k
  · refine ⟨match normOpt payload.key with
      | some k2 => k2
      | none => "input_" ++ natToDec (inputs.length + 1), ?_⟩
    rw [addInput, List.map_append]
    rfl
  · intro i hi
    rw [updateInput] at hi
    obtain ⟨input, hmem, rfl⟩ := List.mem_map.mp hi
    by_cases hid : input.id = id
    · cases hK : normOpt updates.key with
      | none =>
        left
        simp only [if_pos hid, hK, applyUpdates]
        exact List.mem_map.mpr ⟨input, hmem, rfl⟩
      | some k2 =>
        by_cases hne : k2 ≠ input.key
        · right
          refine ⟨k2, ?_⟩
          simp only [if_pos hid, hK, if_pos hne, applyUpdates]
        · left
          simp only [if_pos hid, hK, if_neg hne, applyUpdates]
          exact List.mem_map.mpr ⟨input, hmem, rfl⟩
    · rw [if_neg hid]
      exact Or.inl (List.mem_map.mpr ⟨input, hmem, rfl⟩)

/-- Counterexample to C4 as stated: when the sanitized 50-character key
collides with an existing key, the uniqueness suffix pushes the assigned
key to 52 characters, beyond the claimed 50-character bound. -/
theorem c4_counterexample :
    (ensureUniqueKey
      [{ id := "i1", tabId := "t",
         key := "aaaaaaaaaaaaaaaaaaaaaaaaaaaaaaaaaaaaaaaaaaaaaaaaaa", label := "L" }]
      "aaaaaaaaaaaaaaaaaaaaaaaaaaaaaaaaaaaaaaaaaaaaaaaaaa" none).length = 52 := by
  decide

/-- C3 (amended): `ensureUniqueKey` always returns a key different from the
key of every input whose id differs from `excludeId`; consequently, if the
current inputs list has pairwise-distinct keys, `addInput` preserves
pairwise-distinct keys, and — provided the input ids are pairwise distinct —
so does `updateInput` with any key change.  (Without the distinct-ids
proviso the `updateInput` half is false: see the counterexample.) -/
theorem c3_unique_keys (inputs : List TabInput) (desiredKey : String)
    (excludeId : Option String) (tabId : String) (payload : InputPayload)
    (newId now : String) (id : String) (updates : InputPayload) :
    (ensureUniqueKey inputs desiredKey excludeId ∉
        (inputs.filter (fun i => some i.id != excludeId)).map (fun i => i.key)) ∧
    ((inputs.map (fun i => i.key)).Nodup →
      ((addInput inputs tabId payload newId now).map (fun i => i.key)).Nodup) ∧
    ((inputs.map (fun i => i.key)).Nodup → (inputs.map (fun i => i.id)).Nodup →
      ((updateInput inputs id updates now).map (fun i => i.key)).Nodup) := by
  refine ⟨ensureUniqueKey_not_mem inputs desiredKey excludeId, ?_, ?_⟩
  · -- addInput
    intro hkeys
    rw [addInput, List.map_append]
    simp only [List.map_cons, List.map_nil]
    rw [List.nodup_append]
    refine ⟨hkeys, List.nodup_singleton _, ?_⟩
    rw [List.disjoint_singleton]
    have hfil : inputs.filter (fun input => some input.id != (none : Option String))
        = inputs := List.filter_eq_self.mpr (fun a _ => by simp)
    have := ensureUniqueKey_not_mem inputs
      (match normOpt payload.key with
        | some k2 => k2
        | none => "input_" ++ natToDec (inputs.length + 1)) none
    rw [hfil] at this
    exact this
  · -- updateInput
    intro hkeys hids
    have hinputs : inputs.Nodup := List.Nodup.of_map _ hids
    have hkinj := List.inj_on_of_nodup_map hkeys
    have hiinj := List.inj_on_of_nodup_map hids
    rw [updateInput, List.map_map]
    apply List.Nodup.map_on ?_ hinputs
    intro x hx y hy hxy
    simp only [Function.comp_apply] at hxy
    have hmemkey : ∀ z : TabInput, z ∈ inputs → z.id ≠ id →
        z.key ∈ (inputs.filter (fun i => some i.id != some id)).map (fun i => i.key) := by
      intro z hz hzid
      refine List.mem_map.mpr ⟨z, List.mem_filter.mpr ⟨hz, ?_⟩, rfl⟩
      simp [hzid]
    by_cases hxid : x.id = id
    · by_cases hyid : y.id = id
      · exact hiinj hx hy (hxid.trans hyid.symm)
      · -- x is updated, y is not
        cases hK : normOpt updates.key with
        | none =>
          simp only [if_pos hxid, if_neg hyid, hK, applyUpdates] at hxy
          exact hkinj hx hy hxy
        | some k2 =>
          by_cases hne : k2 ≠ x.key
          · simp only [if_pos hxid, if_neg hyid, hK, if_pos hne, applyUpdates] at hxy
            exfalso
            have hnm := ensureUniqueKey_not_mem inputs k2 (some id)
            rw [hxy] at hnm
            exact hnm (hmemkey y hy hyid)
          · simp only [if_pos hxid, if_neg hyid, hK, if_neg hne, applyUpdates] at hxy
            exact hkinj hx hy hxy
    · by_cases hyid : y.id = id
      · cases hK : normOpt updates.key with
        | none =>
          simp only [if_neg hxid, if_pos hyid, hK, applyUpdates] at hxy
          exact hkinj hx hy hxy
        | some k2 =>
          by_cases hne : k2 ≠ y.key
          · simp only [if_neg hxid, if_pos hyid, hK, if_pos hne, applyUpdates] at hxy
            exfalso
            have hnm := ensureUniqueKey_not_mem inputs k2 (some id)
            rw [← hxy] at hnm
            exact hnm (hmemkey x hx hxid)
          · simp only [if_neg hxid, if_pos hyid, hK, if_neg hne, applyUpdates] at hxy
            exact hkinj hx hy hxy
      · simp only [if_neg hxid, if_neg hyid] at hxy
        exact hkinj hx hy hxy

/-- Witness for C3 at a concrete input: one input, a fresh key added and a
key change applied. -/
theorem c3_witness :
    (([{ id := "a", tabId := "t", key := "x", label := "L" }] : List TabInput).map
        (fun i => i.key)).Nodup ∧
    (([{ id := "a", tabId := "t", key := "x", label := "L" }] : List TabInput).map
        (fun i => i.id)).Nodup ∧
    (ensureUniqueKey [{ id := "a", tabId := "t", key := "x", label := "L" }] "x" none ∉
        (([{ id := "a", tabId := "t", key := "x", label := "L" }] : List TabInput).filter
          (fun i => some i.id != (none : Option String))).map (fun i => i.key)) ∧
    ((addInput [{ id := "a", tabId := "t", key := "x", label := "L" }] "t"
        { key := some "x" } "i2" "NOW").map (fun i => i.key)).Nodup ∧
    ((updateInput [{ id := "a", tabId := "t", key := "x", label := "L" }] "a"
        { key := some "y" } "NOW").map (fun i => i.key)).Nodup := by
  have h := c3_unique_keys [{ id := "a", tabId := "t", key := "x", label := "L" }] "x" none
    "t" { key := some "x" } "i2" "NOW" "a" { key := some "y" }
  exact ⟨by decide, by decide, h.1, h.2.1 (by decide), h.2.2 (by decide) (by decide)⟩

/-- Counterexample to C3 as stated: with two inputs sharing the id `"a"`
(keys `"x"`, `"y"` pairwise distinct), `updateInput("a", { key: "z" })`
rewrites both of them to the same key `"z"`. -/
theorem c3_counterexample :
    (([{ id := "a", tabId := "t", key := "x", label := "L" },
       { id := "a", tabId := "t", key := "y", label := "L" }] : List TabInput).map
        (fun i => i.key)).Nodup ∧
    ¬ ((updateInput
        [{ id := "a", tabId := "t", key := "x", label := "L" },
         { id := "a", tabId := "t", key := "y", label := "L" }] "a"
        { key := some "z" } "NOW").map (fun i => i.key)).Nodup := by
  constructor
  · decide
  · decide

/-! ## Claims C9 and C2: deleting by id -/

/-- Under pairwise-distinct labels, filtering one label out removes exactly
one element. -/
theorem length_filter_ne_of_nodup {α : Type} (f : α → String) (v : String) :
    ∀ l : List α, ((l.map f).Nodup) → (∃ a ∈ l, f a = v) →
      (l.filter (fun a => f a != v)).length + 1 = l.length := by
  intro l
  induction l with
  | nil => rintro _ ⟨a, ha, _⟩; exact absurd ha (List.not_mem_nil a)
  | cons a t ih =>
    rintro hnd ⟨b, hb, hbv⟩
    rw [List.map_cons, List.nodup_cons] at hnd
    obtain ⟨hna, hndt⟩ := hnd
    by_cases hav : f a = v
    · have hfil : t.filter (fun x => f x != v) = t := by
        apply List.filter_eq_self.mpr
        intro x hx
        simp only [bne_iff_ne, ne_eq]
        intro hxv
        apply hna
        rw [hav, ← hxv]
        exact List.mem_map.mpr ⟨x, hx, rfl⟩
      have hcons : (a :: t).filter (fun x => f x != v) = t.filter (fun x => f x != v) := by
        rw [List.filter_cons]
        simp [hav]
      rw [hcons, hfil, List.length_cons]
    · have hbt : b ∈ t := by
        rcases List.mem_cons.mp hb with rfl | h
        · exact absurd hbv hav
        · exact h
      have : (a :: t).filter (fun x => f x != v) = a :: t.filter (fun x => f x != v) := by
        rw [List.filter_cons]
        simp [hav]
      rw [this, List.length_cons, ih hndt ⟨b, hbt, hbv⟩, List.length_cons]

theorem length_filter_ne_of_none {α : Type} (f : α → String) (v : String) (l : List α)
    (hall : ∀ a ∈ l, f a ≠ v) : (l.filter (fun a => f a != v)).length = l.length := by
  rw [List.filter_eq_self.mpr]
  intro a ha
  simp only [bne_iff_ne, ne_eq]
  exact hall a ha

/-- Renumbering the `order` fields does not change anything else. -/
theorem map_strip_mapIdx_inputs (l : List TabInput) :
    ((l.mapIdx (fun index input => { input with order := some (Int.ofNat index) })).map
        stripInputOrder) = l.map stripInputOrder := by
  rw [List.mapIdx_eq_enum_map, List.map_map]
  have hfun : (stripInputOrder ∘
      Function.uncurry fun index input => { input with order := some (Int.ofNat index) })
      = stripInputOrder ∘ Prod.snd := by
    funext p
    cases p
    rfl
  rw [hfun, ← List.map_map, List.enum_map_snd]

theorem map_strip_mapIdx_groups (l : List TabGroup) :
    ((l.mapIdx (fun index g => { g with order := Int.ofNat index })).map stripGroupOrder)
      = l.map stripGroupOrder := by
  rw [List.mapIdx_eq_enum_map, List.map_map]
  have hfun : (stripGroupOrder ∘
      Function.uncurry fun index g => { g with order := Int.ofNat index })
      = stripGroupOrder ∘ Prod.snd := by
    funext p
    cases p
    rfl
  rw [hfun, ← List.map_map, List.enum_map_snd]

/-- C9 (amended): provided the input ids are pairwise distinct,
`removeInput(id)` removes exactly the input with that id when one is
present (and removes nothing otherwise), preserves the relative order and
all other fields of the remaining inputs, and renumbers their `order`
fields to 0, 1, …, n-1 matching their positions.  (Without the proviso the
claim fails: duplicate ids are all removed, see the counterexample.) -/
theorem c9_removeInput (inputs : List TabInput) (id : String)
    (hids : (inputs.map (fun i => i.id)).Nodup) :
    ((removeInput inputs id).map stripInputOrder
        = (inputs.filter (fun i => i.id != id)).map stripInputOrder) ∧
    (∀ k, ∀ h : k < (removeInput inputs id).length,
        ((removeInput inputs id).get ⟨k, h⟩).order = some (Int.ofNat k)) ∧
    ((∃ i ∈ inputs, i.id = id) → (removeInput inputs id).length + 1 = inputs.length) ∧
    ((∀ i ∈ inputs, i.id ≠ id) → (removeInput inputs id).length = inputs.length) := by
  refine ⟨map_strip_mapIdx_inputs _, ?_, ?_, ?_⟩
  · intro k h
    simp only [removeInput, List.get_eq_getElem, List.getElem_mapIdx]
  · intro hex
    rw [removeInput, List.length_mapIdx]
    exact length_filter_ne_of_nodup (fun i => i.id) id inputs hids hex
  · intro hall
    rw [removeInput, List.length_mapIdx]
    exact length_filter_ne_of_none (fun i => i.id) id inputs hall

/-- Witness for C9 at a concrete input: removing `"b"` from a two-input
list. -/
theorem c9_witness :
    (([{ id := "a", tabId := "t", key := "x", label := "L", order := some 7 },
       { id := "b", tabId := "t", key := "y", label := "L", order := some 9 }] :
        List TabInput).map (fun i => i.id)).Nodup ∧
    ((removeInput
        [{ id := "a", tabId := "t", key := "x", label := "L", order := some 7 },
         { id := "b", tabId := "t", key := "y", label := "L", order := some 9 }] "b").map
          stripInputOrder
      = (([{ id := "a", tabId := "t", key := "x", label := "L", order := some 7 },
           { id := "b", tabId := "t", key := "y", label := "L", order := some 9 }] :
            List TabInput).filter (fun i => i.id != "b")).map stripInputOrder) ∧
    ((∃ i ∈ ([{ id := "a", tabId := "t", key := "x", label := "L", order := some 7 },
              { id := "b", tabId := "t", key := "y", label := "L", order := some 9 }] :
            List TabInput), i.id = "b") →
      (removeInput
        [{ id := "a", tabId := "t", key := "x", label := "L", order := some 7 },
         { id := "b", tabId := "t", key := "y", label := "L", order := some 9 }] "b").length + 1
        = 2) := by
  have h := c9_removeInput
    [{ id := "a", tabId := "t", key := "x", label := "L", order := some 7 },
     { id := "b", tabId := "t", key := "y", label := "L", order := some 9 }] "b" (by decide)
  exact ⟨by decide, h.1, h.2.2.1⟩

/-- Counterexample to C9 as stated: with two inputs sharing the id `"a"`,
`removeInput("a")` deletes both of them, not exactly one. -/
theorem c9_counterexample :
    removeInput
      [{ id := "a", tabId := "t", key := "x", label := "L" },
       { id := "a", tabId := "t", key := "y", label := "L" }] "a" = [] := by
  decide

/-- With pairwise-distinct ids, `find` resolves a member's id to that
member. -/
theorem lookupGroup_eq_of_nodup (groups : List TabGroup) (g : TabGroup)
    (hg : g ∈ groups) (hnd : (groups.map (fun h => h.id)).Nodup) :
    lookupGroup groups g.id = some g := by
  induction groups with
  | nil => exact absurd hg (List.not_mem_nil g)
  | cons a t ih =>
    rw [List.map_cons, List.nodup_cons] at hnd
    obtain ⟨hna, hndt⟩ := hnd
    by_cases hag : (a.id == g.id) = true
    · have hageq : a.id = g.id := by simpa using hag
      have : g = a := by
        rcases List.mem_cons.mp hg with rfl | hgt
        · rfl
        · exact absurd (by rw [hageq]; exact List.mem_map.mpr ⟨g, hgt, rfl⟩) hna
      subst this
      simp [lookupGroup, List.find?_cons, hag]
    · have hgt : g ∈ t := by
        rcases List.mem_cons.mp hg with rfl | hgt
        · exact absurd (by simp) hag
        · exact hgt
      rw [lookupGroup, List.find?_cons, Bool.eq_false_iff.mpr hag]
      exact ih hgt hndt

/-- C2 (amended): for every state and every group g in it, provided group
ids are pairwise distinct, removeGroup(g.id) removes exactly g from the
groups list, sets groupId to undefined on every tab whose groupId was g.id,
re-parents every group whose parentId was g.id to g's own parentId when
that is a non-empty id (to root when g had none or an empty one), and
leaves every other tab and every other group unchanged; removeGroup never
deletes a tab and never deletes any group other than g. -/
theorem c2_removeGroup (tabs : List DashboardTab) (groups : List TabGroup) (g : TabGroup)
    (hg : g ∈ groups) (hnd : (groups.map (fun h => h.id)).Nodup) :
    (removeGroup tabs groups g.id).1
        = tabs.map (fun t => if t.groupId == some g.id then { t with groupId := none } else t) ∧
    (removeGroup tabs groups g.id).2
        = (groups.filter (fun h => h.id != g.id)).map (fun h =>
            if h.parentId == some g.id then { h with parentId := normOpt g.parentId } else h) ∧
    (removeGroup tabs groups g.id).1.length = tabs.length ∧
    (removeGroup tabs groups g.id).2.length + 1 = groups.length ∧
    (∀ h ∈ (removeGroup tabs groups g.id).2, h.id ≠ g.id) := by
  have hlook := lookupGroup_eq_of_nodup groups g hg hnd
  refine ⟨?_, ?_, ?_, ?_, ?_⟩
  · simp only [removeGroup]
  · rw [removeGroup]
    rw [hlook]
    rfl
  · simp only [removeGroup, List.length_map]
  · rw [removeGroup, hlook]
    simp only [List.length_map]
    exact length_filter_ne_of_nodup (fun h => h.id) g.id groups hnd ⟨g, hg, rfl⟩
  · intro h hh
    rw [removeGroup, hlook] at hh
    simp only [List.mem_map, List.mem_filter] at hh
    obtain ⟨h0, ⟨hh0, hne0⟩, rfl⟩ := hh
    have hne0b : h0.id ≠ g.id := by simpa using hne0
    by_cases hp : (h0.parentId == some g.id) = true
    · rw [ifBeqTrue hp]
      exact hne0b
    · rw [ifBeqFalse (Bool.eq_false_iff.mpr hp)]
      exact hne0b

/-- Witness for C2 at a concrete input: removing the middle group of the
chain `a ← b ← c` while a tab sits in `b`. -/
theorem c2_witness :
    (⟨"b", "B", 1, some "a"⟩ : TabGroup) ∈
      ([⟨"a", "A", 0, none⟩, ⟨"b", "B", 1, some "a"⟩, ⟨"c", "C", 0, some "b"⟩] :
        List TabGroup) ∧
    (([⟨"a", "A", 0, none⟩, ⟨"b", "B", 1, some "a"⟩, ⟨"c", "C", 0, some "b"⟩] :
        List TabGroup).map (fun h => h.id)).Nodup ∧
    (removeGroup [{ id := "t1", name := "T1", createdAt := "c", groupId := some "b" }]
        [⟨"a", "A", 0, none⟩, ⟨"b", "B", 1, some "a"⟩, ⟨"c", "C", 0, some "b"⟩] "b").2
      = (([⟨"a", "A", 0, none⟩, ⟨"b", "B", 1, some "a"⟩, ⟨"c", "C", 0, some "b"⟩] :
          List TabGroup).filter (fun h => h.id != "b")).map (fun h =>
            if h.parentId == some "b" then { h with parentId := normOpt (some "a") } else h) := by
  have h := c2_removeGroup [{ id := "t1", name := "T1", createdAt := "c", groupId := some "b" }]
    [⟨"a", "A", 0, none⟩, ⟨"b", "B", 1, some "a"⟩, ⟨"c", "C", 0, some "b"⟩]
    ⟨"b", "B", 1, some "a"⟩ (by decide) (by decide)
  exact ⟨by decide, by decide, h.2.1⟩

/-- Counterexample to C2 as stated: with two distinct groups sharing the id
`"a"`, `removeGroup("a")` deletes both — a group other than g is deleted. -/
theorem c2_counterexample :
    (removeGroup [] [⟨"a", "x", 0, none⟩, ⟨"a", "y", 1, none⟩] "a").2 = [] ∧
    (⟨"a", "y", 1, none⟩ : TabGroup) ∈
      ([⟨"a", "x", 0, none⟩, ⟨"a", "y", 1, none⟩] : List TabGroup) ∧
    (⟨"a", "y", 1, none⟩ : TabGroup) ≠ ⟨"a", "x", 0, none⟩ := by
  refine ⟨by decide, by decide, by decide⟩

/-! ## Claims C5 and C8: the splice-based reorders -/

theorem moveElem_of_lt {α : Type} (l : List α) (f t : Nat) (hf : f < l.length) :
    moveElem l f t = insertAt (l.eraseIdx f) t (l.get ⟨f, hf⟩) := by
  rw [moveElem]
  rw [List.getElem?_eq_getElem hf]
  rfl

theorem moveElem_perm {α : Type} (l : List α) (f t : Nat) (hf : f < l.length) :
    (moveElem l f t).Perm l := by
  rw [moveElem_of_lt l f t hf]
  have h1 : (insertAt (l.eraseIdx f) t (l.get ⟨f, hf⟩)).Perm
      (l.get ⟨f, hf⟩ :: l.eraseIdx f) := by
    rw [insertAt]
    refine List.perm_middle.trans ?_
    rw [List.take_append_drop]
  have h2 : (l.get ⟨f, hf⟩ :: l.eraseIdx f).Perm l := by
    rw [List.eraseIdx_eq_take_drop_succ]
    refine (List.perm_middle.symm).trans ?_
    rw [List.get_eq_getElem, List.getElem_cons_drop, List.take_append_drop]
  exact h1.trans h2

/-- C5 (amended): for valid positions within the sublist of groups sharing
the given (normalized) parentId, `reorderGroups` moves the group at
`fromIdx` to `toIdx` among those siblings — splice out, splice in — and
renumbers the siblings' `order` fields to 0, 1, …, n-1, changing no other
field, while every group at a different parent level is kept verbatim (in
front); `reorderInputs` does the same over the whole inputs list, provided
`fromIdx ≠ toIdx` — when the two indices coincide it returns the list
unchanged without renumbering (see the counterexample). -/
theorem c5_reorder (groups : List TabGroup) (fromG toG : Nat) (parentId : Option String)
    (inputs : List TabInput) (fromI toI : Nat)
    (hfg : fromG < (groups.filter (fun g => normOpt g.parentId == normOpt parentId)).length)
    (htg : toG < (groups.filter (fun g => normOpt g.parentId == normOpt parentId)).length)
    (hfi : fromI < inputs.length) (hti : toI < inputs.length) (hne : fromI ≠ toI) :
    (reorderGroups groups fromG toG parentId
      = groups.filter (fun g => normOpt g.parentId != normOpt parentId)
        ++ List.mapIdx (fun index (g : TabGroup) => { g with order := Int.ofNat index })
            (insertAt
              ((groups.filter (fun g => normOpt g.parentId == normOpt parentId)).eraseIdx fromG)
              toG
              ((groups.filter (fun g => normOpt g.parentId == normOpt parentId)).get
                ⟨fromG, hfg⟩))) ∧
    (∀ k, ∀ hk : k < (List.mapIdx (fun index (g : TabGroup) => { g with order := Int.ofNat index })
          (moveElem (groups.filter (fun g => normOpt g.parentId == normOpt parentId))
            fromG toG)).length,
      ((List.mapIdx (fun index (g : TabGroup) => { g with order := Int.ofNat index })
          (moveElem (groups.filter (fun g => normOpt g.parentId == normOpt parentId))
            fromG toG)).get ⟨k, hk⟩).order = Int.ofNat k) ∧
    ((List.mapIdx (fun index (g : TabGroup) => { g with order := Int.ofNat index })
        (moveElem (groups.filter (fun g => normOpt g.parentId == normOpt parentId))
          fromG toG)).map stripGroupOrder
      = (moveElem (groups.filter (fun g => normOpt g.parentId == normOpt parentId)) fromG
          toG).map stripGroupOrder) ∧
    ((moveElem (groups.filter (fun g => normOpt g.parentId == normOpt parentId)) fromG
        toG).Perm (groups.filter (fun g => normOpt g.parentId == normOpt parentId))) ∧
    (reorderInputs inputs fromI toI
      = List.mapIdx (fun index (input : TabInput) => { input with order := some (Int.ofNat index) })
          (moveElem inputs fromI toI)) ∧
    (moveElem inputs fromI toI = insertAt (inputs.eraseIdx fromI) toI (inputs.get ⟨fromI, hfi⟩)) ∧
    (∀ k, ∀ hk : k < (List.mapIdx
          (fun index (input : TabInput) => { input with order := some (Int.ofNat index) })
          (moveElem inputs fromI toI)).length,
      ((List.mapIdx (fun index (input : TabInput) => { input with order := some (Int.ofNat index) })
          (moveElem inputs fromI toI)).get ⟨k, hk⟩).order = some (Int.ofNat k)) ∧
    ((List.mapIdx (fun index (input : TabInput) => { input with order := some (Int.ofNat index) })
        (moveElem inputs fromI toI)).map stripInputOrder
      = (moveElem inputs fromI toI).map stripInputOrder) ∧
    (moveElem inputs fromI toI).Perm inputs := by
  refine ⟨?_, ?_, map_strip_mapIdx_groups _, moveElem_perm _ _ _ hfg, ?_,
    moveElem_of_lt inputs fromI toI hfi, ?_, map_strip_mapIdx_inputs _,
    moveElem_perm _ _ _ hfi⟩
  · rw [reorderGroups, moveElem_of_lt _ _ _ hfg]
  · intro k hk
    simp only [List.get_eq_getElem, List.getElem_mapIdx]
  · rw [reorderInputs, if_neg hne]
  · intro k hk
    simp only [List.get_eq_getElem, List.getElem_mapIdx]

/-- Witness for C5 at a concrete input. -/
theorem c5_witness :
    reorderGroups [⟨"a", "A", 9, none⟩, ⟨"b", "B", 3, none⟩, ⟨"c", "C", 0, some "a"⟩]
        0 1 none
      = ([⟨"a", "A", 9, none⟩, ⟨"b", "B", 3, none⟩, ⟨"c", "C", 0, some "a"⟩] :
          List TabGroup).filter (fun g => normOpt g.parentId != normOpt none)
        ++ List.mapIdx (fun index (g : TabGroup) => { g with order := Int.ofNat index })
            (insertAt ((([⟨"a", "A", 9, none⟩, ⟨"b", "B", 3, none⟩, ⟨"c", "C", 0, some "a"⟩] :
                List TabGroup).filter (fun g => normOpt g.parentId == normOpt none)).eraseIdx 0) 1
              ((([⟨"a", "A", 9, none⟩, ⟨"b", "B", 3, none⟩, ⟨"c", "C", 0, some "a"⟩] :
                List TabGroup).filter (fun g => normOpt g.parentId == normOpt none)).get
                ⟨0, by decide⟩)) ∧
    reorderInputs [{ id := "a", tabId := "t", key := "x", label := "L", order := some 7 },
        { id := "b", tabId := "t", key := "y", label := "L", order := some 9 }] 0 1
      = List.mapIdx (fun index (input : TabInput) => { input with order := some (Int.ofNat index) })
          (moveElem [{ id := "a", tabId := "t", key := "x", label := "L", order := some 7 },
            { id := "b", tabId := "t", key := "y", label := "L", order := some 9 }] 0 1) := by
  have h := c5_reorder [⟨"a", "A", 9, none⟩, ⟨"b", "B", 3, none⟩, ⟨"c", "C", 0, some "a"⟩]
    0 1 none
    [{ id := "a", tabId := "t", key := "x", label := "L", order := some 7 },
     { id := "b", tabId := "t", key := "y", label := "L", order := some 9 }] 0 1
    (by decide) (by decide) (by decide) (by decide) (by decide)
  exact ⟨h.1, h.2.2.2.2.1⟩

/-- Counterexample to C5 as stated: `reorderInputs` with `fromIdx = toIdx`
(valid positions) returns early and does not renumber the `order` fields
to positions. -/
theorem c5_counterexample :
    (reorderInputs [{ id := "a", tabId := "t", key := "x", label := "L", order := some 5 }]
        0 0).map (fun i => i.order) = [some 5] := by
  decide

/-- C8 (amended): for valid positions within the targeted sublist of tabs
(the tabs whose groupId strictly equals the given non-empty groupId, or
the tabs with no — or empty — groupId when the argument is omitted or
empty), `reorderTabs` produces a permutation of the original tabs — no tab
added, removed or modified — laid out as every tab outside the targeted
sublist first, then the reordered sublist; hence the call can change the
global positions of tabs other than the moved one. -/
theorem c8_reorderTabs (tabs : List DashboardTab) (fromIdx toIdx : Nat)
    (groupId : Option String)
    (hf : fromIdx < (tabs.filter (tabInTarget groupId)).length)
    (ht : toIdx < (tabs.filter (tabInTarget groupId)).length) :
    (reorderTabs tabs fromIdx toIdx groupId).Perm tabs ∧
    reorderTabs tabs fromIdx toIdx groupId
      = tabs.filter (fun t => !tabInTarget groupId t)
        ++ moveElem (tabs.filter (tabInTarget groupId)) fromIdx toIdx ∧
    (∀ x ∈ tabs.filter (fun t => !tabInTarget groupId t), tabInTarget groupId x = false) ∧
    (∀ x ∈ moveElem (tabs.filter (tabInTarget groupId)) fromIdx toIdx,
      tabInTarget groupId x = true) := by
  have heq : reorderTabs tabs fromIdx toIdx groupId
      = tabs.filter (fun t => !tabInTarget groupId t)
        ++ moveElem (tabs.filter (tabInTarget groupId)) fromIdx toIdx := rfl
  refine ⟨?_, heq, ?_, ?_⟩
  · rw [heq]
    refine (List.Perm.append_left _ (moveElem_perm _ _ _ hf)).trans ?_
    refine (List.perm_append_comm).trans ?_
    exact List.filter_append_perm _ tabs
  · intro x hx
    have := List.of_mem_filter hx
    simpa using this
  · intro x hx
    have hx2 : x ∈ tabs.filter (tabInTarget groupId) :=
      (moveElem_perm _ fromIdx toIdx hf).subset hx
    exact List.of_mem_filter hx2

/-- Witness for C8 at a concrete input: two tabs of group `"g"` swapped
behind an ungrouped tab. -/
theorem c8_witness :
    (reorderTabs
        [{ id := "u", name := "U", createdAt := "c" },
         { id := "x", name := "X", createdAt := "c", groupId := some "g" },
         { id := "y", name := "Y", createdAt := "c", groupId := some "g" }] 0 1
        (some "g")).Perm
      [{ id := "u", name := "U", createdAt := "c" },
       { id := "x", name := "X", createdAt := "c", groupId := some "g" },
       { id := "y", name := "Y", createdAt := "c", groupId := some "g" }] ∧
    reorderTabs
        [{ id := "u", name := "U", createdAt := "c" },
         { id := "x", name := "X", createdAt := "c", groupId := some "g" },
         { id := "y", name := "Y", createdAt := "c", groupId := some "g" }] 0 1 (some "g")
      = ([{ id := "u", name := "U", createdAt := "c" },
          { id := "x", name := "X", createdAt := "c", groupId := some "g" },
          { id := "y", name := "Y", createdAt := "c", groupId := some "g" }] :
            List DashboardTab).filter (fun t => !tabInTarget (some "g") t)
        ++ moveElem (([{ id := "u", name := "U", createdAt := "c" },
            { id := "x", name := "X", createdAt := "c", groupId := some "g" },
            { id := "y", name := "Y", createdAt := "c", groupId := some "g" }] :
              List DashboardTab).filter (tabInTarget (some "g"))) 0 1 := by
  have h := c8_reorderTabs
    [{ id := "u", name := "U", createdAt := "c" },
     { id := "x", name := "X", createdAt := "c", groupId := some "g" },
     { id := "y", name := "Y", createdAt := "c", groupId := some "g" }] 0 1 (some "g")
    (by decide) (by decide)
  exact ⟨h.1, h.2.1⟩

/-- Counterexample to C8 as stated: with `groupId` omitted, the code's
"ungrouped" sublist uses JS truthiness and also captures a tab whose
groupId is the empty string; reading "belonging to no group" as
`groupId = undefined` (the reading the type's own comment prescribes), the
grouped tab `a` (groupId `""`) ends up after the ungrouped tab `b`, so a
tab outside the targeted group does not precede every tab inside it. -/
theorem c8_counterexample :
    reorderTabs
        [{ id := "b", name := "B", createdAt := "c" },
         { id := "a", name := "A", createdAt := "c", groupId := some "" }] 0 0 none
      = [{ id := "b", name := "B", createdAt := "c" },
         { id := "a", name := "A", createdAt := "c", groupId := some "" }] ∧
    ({ id := "b", name := "B", createdAt := "c" } : DashboardTab).groupId = none ∧
    ({ id := "a", name := "A", createdAt := "c", groupId := some "" } :
        DashboardTab).groupId ≠ none := by
  refine ⟨by decide, rfl, by decide⟩

/-! ## Claim C6: the effect of a performed move -/

/-- The `maxOrder` the code computes over the re-parented list equals the
claim's formula over the original list: the maximal order among the other
groups at the target level. -/
theorem moveMax_eq_filter_orig (groups : List TabGroup) (groupId : String)
    (target : Option String) :
    moveMax groups groupId target
      = (((groups.filter (fun h =>
            normOpt h.parentId == normOpt target && h.id != groupId)).map
          (fun h => h.order)).max?).getD (-1) := by
  rw [moveMax]
  congr 2
  rw [List.filter_map]
  have hpred : ((fun h : TabGroup => normOpt h.parentId == normOpt target && h.id != groupId) ∘
      fun h : TabGroup => if h.id == groupId then { h with parentId := normOpt target } else h)
      = (fun h : TabGroup => normOpt h.parentId == normOpt target && h.id != groupId) := by
    funext h
    by_cases hid : (h.id == groupId) = true
    · simp only [Function.comp_apply, ifBeqTrue hid]
      have hid2 : h.id = groupId := by simpa using hid
      simp [hid2]
    · simp only [Function.comp_apply, ifBeqFalse (Bool.eq_false_iff.mpr hid)]
  rw [hpred]
  have hmapid : (groups.filter (fun h : TabGroup =>
      normOpt h.parentId == normOpt target && h.id != groupId)).map
        (fun h : TabGroup => if h.id == groupId then { h with parentId := normOpt target } else h)
      = groups.filter (fun h : TabGroup =>
          normOpt h.parentId == normOpt target && h.id != groupId) := by
    have hcg : ∀ h ∈ groups.filter (fun h : TabGroup =>
        normOpt h.parentId == normOpt target && h.id != groupId),
        (fun h : TabGroup =>
          if h.id == groupId then { h with parentId := normOpt target } else h) h = id h := by
      intro h hh
      have hp := List.of_mem_filter hh
      have hne : (h.id != groupId) = true := by
        simp only [Bool.and_eq_true] at hp
        exact hp.2
      have hfalse : (h.id == groupId) = false := by
        simpa using hne
      dsimp only
      rw [ifBeqFalse hfalse]
      rfl
    rw [List.map_congr_left hcg, List.map_id]
  rw [hmapid]

/-- C6 (amended): provided group ids are pairwise distinct, when
`moveGroupToParent(g.id, targetParentId)` performs a move (the target is
neither g itself nor one of g's descendants), the moved group's parentId
becomes the target (undefined when the target is null or the empty string)
and its order becomes one more than the maximal order among the other
groups at the target level (0 when that level has no other group); every
other group and every tab is passed through unchanged. -/
theorem c6_moveGroupToParent_effect (tabs : List DashboardTab) (groups : List TabGroup)
    (g : TabGroup) (targetParentId : Option String)
    (hg : g ∈ groups) (hnd : (groups.map (fun h => h.id)).Nodup)
    (hne1 : targetParentId ≠ some g.id)
    (hnodesc : ∀ t, targetParentId = some t → ¬ Descendant groups t g.id) :
    moveGroupToParent tabs groups g.id targetParentId
      = (tabs, movedGroups groups g.id targetParentId) ∧
    movedGroups groups g.id targetParentId
      = groups.map (fun h =>
          if h.id == g.id then
            { h with parentId := normOpt targetParentId, order := moveMax groups g.id targetParentId + 1 }
          else h) ∧
    moveMax groups g.id targetParentId
      = (((groups.filter (fun h =>
            normOpt h.parentId == normOpt targetParentId && h.id != g.id)).map
          (fun h => h.order)).max?).getD (-1) ∧
    (∀ h ∈ groups, h.id ≠ g.id → h ∈ (moveGroupToParent tabs groups g.id targetParentId).2) := by
  have hfound : lookupGroup groups g.id = some g := lookupGroup_eq_of_nodup groups g hg hnd
  have hdesc : ∀ t, targetParentId = some t → t ≠ "" →
      isDescendant groups t g.id (groups.length + 1) = false := by
    intro t ht _
    by_contra hcon
    have hcon2 : isDescendant groups t g.id (groups.length + 1) = true := by
      revert hcon; cases isDescendant groups t g.id (groups.length + 1) <;> simp
    exact hnodesc t ht ⟨groups.length + 1, isDescendant_imp_reaches groups g.id _ t hcon2⟩
  have hmain := moveGroupToParent_moves tabs groups g.id targetParentId g hfound hne1 hdesc
  refine ⟨hmain, rfl, moveMax_eq_filter_orig groups g.id targetParentId, ?_⟩
  intro h hh hne
  rw [hmain]
  show h ∈ movedGroups groups g.id targetParentId
  rw [movedGroups]
  refine List.mem_map.mpr ⟨h, hh, ?_⟩
  rw [ifBeqFalse (Bool.eq_false_iff.mpr (by simpa using hne))]

/-- Witness for C6 at a concrete input: `b` (child of `a`) is moved to the
root level, landing after `a` with order 1. -/
theorem c6_witness :
    moveGroupToParent [] [⟨"a", "A", 0, none⟩, ⟨"b", "B", 0, some "a"⟩] "b" none
      = ([], movedGroups [⟨"a", "A", 0, none⟩, ⟨"b", "B", 0, some "a"⟩] "b" none) ∧
    moveMax [⟨"a", "A", 0, none⟩, ⟨"b", "B", 0, some "a"⟩] "b" none
      = (((([⟨"a", "A", 0, none⟩, ⟨"b", "B", 0, some "a"⟩] : List TabGroup).filter (fun h =>
            normOpt h.parentId == normOpt none && h.id != "b")).map
          (fun h => h.order)).max?).getD (-1) := by
  have h := c6_moveGroupToParent_effect [] [⟨"a", "A", 0, none⟩, ⟨"b", "B", 0, some "a"⟩]
    ⟨"b", "B", 0, some "a"⟩ none (by decide) (by decide) (by decide)
    (fun t ht => nomatch ht)
  exact ⟨h.1, h.2.2.1⟩

/-- Counterexample to C6 as stated: moving a root group onto the
empty-string target performs a move (the target is neither the group nor a
descendant), but the parentId becomes `undefined`, not the empty string
the claim prescribes for a non-null target (the order is also reset to 0,
overwriting 5 although the claim's formula gives 0 for the empty level —
the parentId disagreement alone falsifies the claim). -/
theorem c6_counterexample :
    ((moveGroupToParent [] [⟨"g", "n", 5, none⟩] "g" (some "")).2).map (fun h => h.parentId)
      = [none] ∧ (some "" : Option String) ≠ none ∧ (some "" : Option String) ≠ some "g" := by
  refine ⟨by decide, by decide, by decide⟩

/-! ## Claims C7 and C10: the REST handlers -/

/-- C7 (amended): the GET handler responds 400 exactly when the `tabId`
query parameter is absent or the empty string; for a present non-empty
`tabId` with no stored document it responds `{ tabId, inputs: [] }`; with a
stored document it responds with that document's inputs array (or `[]`
when the document has none); a thrown storage error yields status 500. -/
theorem c7_getTabInputs (tid : String) (doc : StoredTabInputsDoc) (e : String)
    (db : Except String (Option StoredTabInputsDoc)) (hne : tid ≠ "") :
    getTabInputs none db = .status400 "tabId is required" ∧
    getTabInputs (some "") db = .status400 "tabId is required" ∧
    getTabInputs (some tid) (.ok none) = .ok tid [] ∧
    getTabInputs (some tid) (.ok (some doc)) = .ok tid (doc.inputs.getD []) ∧
    getTabInputs (some tid) (.error e) = .status500 "Failed to fetch tab inputs" := by
  refine ⟨rfl, rfl, ?_, ?_, ?_⟩ <;> simp [getTabInputs, hne]

/-- Witness for C7 at a concrete input. -/
theorem c7_witness :
    getTabInputs none (.ok none) = .status400 "tabId is required" ∧
    getTabInputs (some "t") (.ok none) = .ok "t" [] ∧
    getTabInputs (some "t")
        (.ok (some { inputs := some [{ id := "i", tabId := "t", key := "k", label := "L" }] }))
      = .ok "t" (some [{ id := "i", tabId := "t", key := "k", label := "L" }] |>.getD []) ∧
    getTabInputs (some "t") (.error "boom") = .status500 "Failed to fetch tab inputs" := by
  have h := c7_getTabInputs "t"
    { inputs := some [{ id := "i", tabId := "t", key := "k", label := "L" }] } "boom"
    (.ok none) (by decide)
  exact ⟨h.1, h.2.2.1, h.2.2.2.1, h.2.2.2.2⟩

/-- Counterexample to C7 as stated: an empty-string `tabId` query parameter
is present, not absent, yet the handler responds 400 (`if (!tabId)` is JS
truthiness). -/
theorem c7_counterexample :
    getTabInputs (some "") (.ok none) = .status400 "tabId is required" ∧
    (some "" : Option String) ≠ none := by
  exact ⟨rfl, by decide⟩

/-- C10 (amended): the POST handler responds 400 when `tabId` is missing or
empty or `inputs` is not an array; otherwise it stores each submitted input
with its `tabId` overwritten by the request's `tabId`, its `order`
overwritten by its index in the submitted array, its `updatedAt` set to the
current time, and its `createdAt` preserved when already set to a non-empty
string (an unset — or empty, by JS truthiness — `createdAt` is replaced by
the current time); every other field is stored as submitted. -/
theorem c10_postTabInputs (tid : String) (inputs : Option (List TabInput))
    (l : List TabInput) (now : String) (dbOk : Except String Unit) (hne : tid ≠ "") :
    postTabInputs none inputs now dbOk = .status400 "tabId is required" ∧
    postTabInputs (some "") inputs now dbOk = .status400 "tabId is required" ∧
    postTabInputs (some tid) none now dbOk = .status400 "inputs must be an array" ∧
    postTabInputs (some tid) (some l) now (.ok ())
      = .saved tid (l.mapIdx (sanitizeStoredInput tid now)) ∧
    (∀ k, ∀ hk : k < (l.mapIdx (sanitizeStoredInput tid now)).length,
      ∀ hk2 : k < l.length,
      ((l.mapIdx (sanitizeStoredInput tid now)).get ⟨k, hk⟩).tabId = tid ∧
      ((l.mapIdx (sanitizeStoredInput tid now)).get ⟨k, hk⟩).order = some (Int.ofNat k) ∧
      ((l.mapIdx (sanitizeStoredInput tid now)).get ⟨k, hk⟩).updatedAt = some now ∧
      ((l.mapIdx (sanitizeStoredInput tid now)).get ⟨k, hk⟩).createdAt
        = some ((normOpt (l.get ⟨k, hk2⟩).createdAt).getD now) ∧
      (∀ c, (l.get ⟨k, hk2⟩).createdAt = some c → c ≠ "" →
        ((l.mapIdx (sanitizeStoredInput tid now)).get ⟨k, hk⟩).createdAt = some c) ∧
      ((l.mapIdx (sanitizeStoredInput tid now)).get ⟨k, hk⟩).key = (l.get ⟨k, hk2⟩).key ∧
      ((l.mapIdx (sanitizeStoredInput tid now)).get ⟨k, hk⟩).label = (l.get ⟨k, hk2⟩).label) := by
  refine ⟨rfl, rfl, by simp [postTabInputs, hne], by simp [postTabInputs, hne], ?_⟩
  intro k hk hk2
  refine ⟨by simp [List.getElem_mapIdx, sanitizeStoredInput],
    by simp [List.getElem_mapIdx, sanitizeStoredInput],
    by simp [List.getElem_mapIdx, sanitizeStoredInput],
    by simp [List.get_eq_getElem, List.getElem_mapIdx, sanitizeStoredInput], ?_,
    by simp [List.get_eq_getElem, List.getElem_mapIdx, sanitizeStoredInput],
    by simp [List.get_eq_getElem, List.getElem_mapIdx, sanitizeStoredInput]⟩
  intro c hc hcne
  rw [List.get_eq_getElem] at hc
  simp only [List.get_eq_getElem, List.getElem_mapIdx, sanitizeStoredInput, hc, normOpt,
    if_neg hcne]
  rfl

/-- Witness for C10 at a concrete input. -/
theorem c10_witness :
    postTabInputs (some "t")
        (some [{ id := "i", tabId := "z", key := "k", label := "L", createdAt := some "2020" }])
        "NOW" (.ok ())
      = .saved "t"
          ([{ id := "i", tabId := "z", key := "k", label := "L", createdAt := some "2020" }].mapIdx
            (sanitizeStoredInput "t" "NOW")) ∧
    postTabInputs none (some []) "NOW" (.ok ()) = .status400 "tabId is required" := by
  have h := c10_postTabInputs "t" (some [])
    [{ id := "i", tabId := "z", key := "k", label := "L", createdAt := some "2020" }]
    "NOW" (.ok ()) (by decide)
  exact ⟨h.2.2.2.1, h.1⟩

/-- Counterexample to C10 as stated: a submitted input whose `createdAt` is
already set (to the empty string) does not keep it — JS truthiness replaces
it with the current time. -/
theorem c10_counterexample :
    postTabInputs (some "t")
        (some [{ id := "i", tabId := "z", key := "k", label := "L", createdAt := some "" }])
        "NOW" (.ok ())
      = .saved "t"
          [{ id := "i", tabId := "t", key := "k", label := "L", order := some 0, createdAt := some "NOW", updatedAt := some "NOW" }] ∧
    (some "" : Option String) ≠ none := by
  exact ⟨by decide, by decide⟩
